import Mathlib

/-!
# Block streams and the TCP handler

A shallow embedding of three translation units of the server:

* `AddingDefaultBlockInputStream.h`  (the missing-column defaulting stage),
* `AsynchronousBlockInputStream.h`   (the one-block read-ahead stage),
* `TCPHandler.cpp`                   (the per-connection protocol handler),

followed by theorems about them.  Exceptions are values of type `Thrown`;
a C++ function that may throw returns an `Except Thrown _` next to the state
it leaves behind, so that what was written before a throw is not lost.
-/

namespace DB

/-! ## Exceptions -/

/-- Modelled from the spec: the named constants of `DB/Core/ErrorCodes.h`
(the header is not among the sources).  Only their being distinct named
constants is used; `other` stands for any further numeric code. -/
inductive ErrorCode where
  | UNKNOWN_DATABASE
  | UNEXPECTED_PACKET_FROM_CLIENT
  | UNKNOWN_PACKET_FROM_CLIENT
  | ATTEMPT_TO_READ_AFTER_EOF
  | CANNOT_READ_ALL_DATA
  | DUPLICATE_COLUMN
  | SIZES_OF_COLUMNS_DOESNT_MATCH
  | POCO_EXCEPTION
  | STD_EXCEPTION
  | UNKNOWN_EXCEPTION
  | other (code : Int)
deriving DecidableEq, Repr

/-- The class `DB::Exception`: a message and a code. -/
structure Exception where
  message : String
  code : ErrorCode
deriving DecidableEq, Repr

/-- What a C++ `throw` can carry, by the dynamic type the `catch` clauses of
the sources distinguish: `DB::Exception`, another `Poco::Exception`, another
`std::exception`, or anything else (caught by `catch (...)`). -/
inductive Thrown where
  | dbException (e : Exception)
  | pocoException (message : String) (code : Int)
  | stdException (what : String)
  | unknown
deriving DecidableEq, Repr

/-! ## Columns and blocks -/

/-- Modelled from the spec: a single value of a column (`Field`). -/
inductive Field where
  | int (v : Int)
  | str (s : String)
deriving DecidableEq, Repr

/-- Modelled from the spec: a column is either materialized (explicit
per-row values) or constant (one value logically repeated `size` times). -/
inductive Column where
  | full (values : List Field)
  | const (size : Nat) (value : Field)
deriving DecidableEq, Repr

/-- Modelled from the spec: the length of a column. -/
def Column.size : Column → Nat
  | .full values => values.length
  | .const size _ => size

/-- Modelled from the spec: whether a column is materialized. -/
def Column.isFull : Column → Bool
  | .full _ => true
  | .const _ _ => false

/-- Modelled from the spec: `dynamic_cast<IColumnConst &>(c).convertToFullColumn()`.
A constant column expands to a materialized one of the same length; the cast
of a column that is not constant throws `std::bad_cast`. -/
def Column.convertToFullColumn : Column → Except Thrown Column
  | .const size value => .ok (.full (List.replicate size value))
  | .full _ => .error (.stdException "std::bad_cast")

/-- Modelled from the spec: a data type exposes a stable name and a default
value (`IDataType::getName`, `IDataType::getDefault`). -/
structure DataType where
  name : String
  getDefault : Field
deriving DecidableEq, Repr

/-- Modelled from the spec: `IDataType::createConstColumn(size, value)`. -/
def DataType.createConstColumn (_t : DataType) (size : Nat) (value : Field) : Column :=
  .const size value

/-- The triple `ColumnWithNameAndType`. -/
structure ColumnWithNameAndType where
  name : String
  type : DataType
  column : Column
deriving DecidableEq, Repr

/-- Modelled from the spec: a block is an ordered collection of
`(name, type, column)` triples; the block without columns is the terminator. -/
structure Block where
  data : List ColumnWithNameAndType
deriving DecidableEq, Repr

/-- The default-constructed `Block()`. -/
def Block.empty : Block := ⟨[]⟩

/-- Modelled from the spec: `!block`, true exactly for the block without columns. -/
def Block.isEmpty (b : Block) : Bool := b.data.isEmpty

/-- Modelled from the spec: `Block::has(name)`. -/
def Block.has (b : Block) (name : String) : Bool :=
  b.data.any (fun c => c.name == name)

/-- Modelled from the spec: `Block::rows()`, the common length of the columns
(the length of the first one; 0 for the block without columns). -/
def Block.rows (b : Block) : Nat :=
  match b.data with
  | [] => 0
  | c :: _ => c.column.size

/-- Modelled from the spec: `Block::columns()`. -/
def Block.columns (b : Block) : Nat := b.data.length

/-- Modelled from the spec: `Block::insert(col)`.  A duplicate name fails with
`DuplicateColumn`; a length different from the row count of a block that
already has columns fails with `ShapeMismatch`; otherwise the column is
appended. -/
def Block.insert (b : Block) (col : ColumnWithNameAndType) : Except Thrown Block :=
  if b.has col.name then
    .error (.dbException ⟨"Duplicate column " ++ col.name, .DUPLICATE_COLUMN⟩)
  else if !b.isEmpty && col.column.size != b.rows then
    .error (.dbException ⟨"Sizes of columns doesn't match", .SIZES_OF_COLUMNS_DOESNT_MATCH⟩)
  else
    .ok ⟨b.data ++ [col]⟩

/-- The list `NamesAndTypesList` of `(name, type)` pairs. -/
abbrev NamesAndTypesList := List (String × DataType)

/-! ## Input streams -/

/-- Modelled from the spec: an `IBlockInputStream` seen from its consumer,
the results its successive `read()` calls will give.  A stream is finite:
once the list is used up `read()` yields the terminator. -/
abbrev IBlockInputStream := List (Except Thrown Block)

/-- Modelled from the spec: one call of `read()` on an upstream, the result and
the stream that is left. -/
def IBlockInputStream.read : IBlockInputStream → Except Thrown Block × IBlockInputStream
  | [] => (.ok Block.empty, [])
  | r :: rest => (r, rest)

/-! ## AddingDefaultBlockInputStream -/

/-- The members of `AddingDefaultBlockInputStream`. -/
structure AddingDefaultBlockInputStream where
  input : IBlockInputStream
  required_columns : NamesAndTypesList

namespace AddingDefaultBlockInputStream

/-- The body of the `for` loop of `readImpl` for one entry `it` of
`required_columns`, on the block `res` built so far. -/
def addColumn (it : String × DataType) (res : Block) : Except Thrown Block :=
  if !res.has it.1 then
    match (it.2.createConstColumn res.rows it.2.getDefault).convertToFullColumn with
    | .error e => .error e
    | .ok column => res.insert { name := it.1, type := it.2, column := column }
  else
    .ok res

/-- The `for` loop of `readImpl` over `required_columns`. -/
def addColumns : NamesAndTypesList → Block → Except Thrown Block
  | [], res => .ok res
  | it :: rest, res =>
    match addColumn it res with
    | .error e => .error e
    | .ok res1 => addColumns rest res1

/-- The method `AddingDefaultBlockInputStream::readImpl`. -/
def readImpl (s : AddingDefaultBlockInputStream) :
    Except Thrown Block × AddingDefaultBlockInputStream :=
  match s.input.read with
  | (.error e, input1) => (.error e, { s with input := input1 })
  | (.ok res, input1) =>
    if res.isEmpty then
      (.ok res, { s with input := input1 })
    else
      (addColumns s.required_columns res, { s with input := input1 })

/-- The column the loop of `readImpl` builds for the entry `(name, type)` on a block of
`rows` rows: materialized, `rows` copies of the default of `type`. -/
def defaultColumn (name : String) (type : DataType) (rows : Nat) : ColumnWithNameAndType :=
  { name := name, type := type, column := .full (List.replicate rows type.getDefault) }

end AddingDefaultBlockInputStream

/-! ### Sample data -/

/-- The data type `Int16`, default 0. -/
def typeInt16 : DataType := ⟨"Int16", .int 0⟩

/-- The data type `String`, default the empty string. -/
def typeString : DataType := ⟨"String", .str ""⟩

/-- A block with the single column `a = [1, 2, 3]` of type `Int16`. -/
def blockA123 : Block :=
  ⟨[{ name := "a", type := typeInt16, column := .full [.int 1, .int 2, .int 3] }]⟩

/-- The required schema `[(a, Int16), (b, String)]`. -/
def schemaAB : NamesAndTypesList := [("a", typeInt16), ("b", typeString)]

/-- A required schema that lists the name `b` twice, with two types. -/
def schemaBB : NamesAndTypesList := [("b", typeString), ("b", typeInt16)]

/-! ## AsynchronousBlockInputStream -/

/-- The members of `AsynchronousBlockInputStream`.  The upstream `in` is
called `in_` as in the constructor.  `pool` is the thread pool of size 1,
represented by the number of tasks scheduled in it and not yet completed;
`ready` is the state of the `Poco::Event`.  The last two fields are history
variables: how often `in->read()` was called and how often `pool.schedule`
was called. -/
structure AsynchronousBlockInputStream where
  in_ : IBlockInputStream
  pool : Nat
  ready : Bool
  started : Bool
  block : Block
  exception : Option Thrown
  in_read_calls : Nat
  schedule_calls : Nat
deriving Repr

namespace AsynchronousBlockInputStream

/-- The constructor: `pool(1)`, `started(false)`, an empty `block`, no
`exception`, the event not signalled. -/
def create (in_ : IBlockInputStream) : AsynchronousBlockInputStream :=
  { in_ := in_, pool := 0, ready := false, started := false, block := Block.empty,
    exception := none, in_read_calls := 0, schedule_calls := 0 }

/-- The four `catch` clauses of `calculate`: what is stored in `exception`
for a thrown value.  A `DB::Exception` and a `Poco::Exception` are cloned, a
`std::exception` becomes a `DB::Exception` with its `what()` and the code
`STD_EXCEPTION`, anything else becomes `Exception("Unknown exception",
UNKNOWN_EXCEPTION)`. -/
def caught : Thrown → Thrown
  | .dbException e => .dbException e
  | .pocoException message code => .pocoException message code
  | .stdException what => .dbException ⟨what, .STD_EXCEPTION⟩
  | .unknown => .dbException ⟨"Unknown exception", .UNKNOWN_EXCEPTION⟩

/-- The method `calculate`: `block = in->read()` inside a `try` whose `catch`
clauses store the exception, then `ready.set()`.  It has no error result: the
last clause is `catch (...)`. -/
def calculate (s : AsynchronousBlockInputStream) : AsynchronousBlockInputStream :=
  match s.in_.read with
  | (.ok b, in1) =>
    { s with in_ := in1, in_read_calls := s.in_read_calls + 1, block := b, ready := true }
  | (.error e, in1) =>
    { s with in_ := in1, in_read_calls := s.in_read_calls + 1, exception := some (caught e),
             ready := true }

/-- The method `next`: `ready.reset()` and `pool.schedule(calculate)`. -/
def next (s : AsynchronousBlockInputStream) : AsynchronousBlockInputStream :=
  { s with ready := false, pool := s.pool + 1, schedule_calls := s.schedule_calls + 1 }

/-- The worker thread of the pool runs one scheduled task (`calculate`) to
completion, if there is one. -/
def worker (s : AsynchronousBlockInputStream) : AsynchronousBlockInputStream :=
  match s.pool with
  | 0 => s
  | n + 1 => { calculate s with pool := n }

/-- The worker runs `n` times. -/
def workerRuns : Nat → AsynchronousBlockInputStream → AsynchronousBlockInputStream
  | 0, s => s
  | n + 1, s => workerRuns n (worker s)

/-- The call `pool.wait()`: returns once every scheduled task has completed. -/
def poolWait (s : AsynchronousBlockInputStream) : AsynchronousBlockInputStream :=
  workerRuns s.pool s

/-- The method `poll(milliseconds)`.  `worker_finishes` says whether the worker
completes its task while `ready.tryWait` waits.  The event is constructed
with the default arguments of `Poco::Event`, that is auto-reset: a successful
`tryWait` resets it. -/
def poll (milliseconds : Nat) (worker_finishes : Bool) (s : AsynchronousBlockInputStream) :
    Bool × AsynchronousBlockInputStream :=
  let _ := milliseconds
  let s1 := if !s.started then { next s with started := true } else s
  let s2 := if worker_finishes then worker s1 else s1
  (s2.ready, { s2 with ready := false })

/-- The method `readImpl`. -/
def readImpl (s : AsynchronousBlockInputStream) :
    Except Thrown Block × AsynchronousBlockInputStream :=
  let s1 := if !s.started then { calculate s with started := true } else poolWait s
  match s1.exception with
  | some e => (.error e, s1)
  | none =>
    let res := s1.block
    if res.isEmpty then
      (.ok res, s1)
    else
      (.ok res, next { s1 with block := Block.empty })

/-- What can happen to a stream between two observations: the consumer calls
`poll`, the consumer calls `read`, or the worker thread runs its task. -/
inductive Call where
  | poll (milliseconds : Nat) (worker_finishes : Bool)
  | read
  | worker
deriving DecidableEq, Repr

/-- Whether a call is a `read`. -/
def Call.isRead : Call → Bool
  | .read => true
  | _ => false

/-- One call: the stream afterwards and, for a `read`, its result. -/
def step (s : AsynchronousBlockInputStream) :
    Call → AsynchronousBlockInputStream × Option (Except Thrown Block)
  | .poll milliseconds worker_finishes => ((poll milliseconds worker_finishes s).2, none)
  | .read => ((readImpl s).2, some (readImpl s).1)
  | .worker => (worker s, none)

/-- The stream after a sequence of calls. -/
def after (s : AsynchronousBlockInputStream) : List Call → AsynchronousBlockInputStream
  | [] => s
  | c :: calls => after (step s c).1 calls

/-- The results of the `read` calls of a sequence of calls, in order. -/
def reads (s : AsynchronousBlockInputStream) : List Call → List (Except Thrown Block)
  | [] => []
  | c :: calls =>
    match (step s c).2 with
    | some r => r :: reads (step s c).1 calls
    | none => reads (step s c).1 calls

end AsynchronousBlockInputStream

/-- A block with the single column `a = [4, 5]` of type `Int16`. -/
def blockA45 : Block :=
  ⟨[{ name := "a", type := typeInt16, column := .full [.int 4, .int 5] }]⟩

namespace AsynchronousBlockInputStream

/-- The part of `readImpl` after the `if`: rethrow a stored exception, else
hand out the buffered block and, unless it is empty, schedule the next one.
Used to reason about `readImpl`, which it restates. -/
def deliver (s1 : AsynchronousBlockInputStream) :
    Except Thrown Block × AsynchronousBlockInputStream :=
  match s1.exception with
  | some e => (.error e, s1)
  | none =>
    if s1.block.isEmpty then
      (.ok s1.block, s1)
    else
      (.ok s1.block, next { s1 with block := Block.empty })

/-- The relation between a stream and the blocks `rem` it has still to
return, for an upstream that yields non-empty blocks and then `tail`: no
exception is stored and the stream is either idle (not started), or running
(one task scheduled, upstream not yet read), or ready (the head of `rem` is
buffered), or terminated (the empty block is buffered). -/
def Serves (tail : IBlockInputStream) (rem : List Block)
    (s : AsynchronousBlockInputStream) : Prop :=
  s.exception = none ∧
  ((s.started = false ∧ s.pool = 0 ∧ s.in_ = rem.map Except.ok ++ tail) ∨
   (s.started = true ∧ s.pool = 1 ∧ s.in_ = rem.map Except.ok ++ tail) ∨
   (s.started = true ∧ s.pool = 0 ∧
      ∃ b rem1, rem = b :: rem1 ∧ s.block = b ∧ s.in_ = rem1.map Except.ok ++ tail) ∨
   (s.started = true ∧ s.pool = 0 ∧ rem = [] ∧ s.block = Block.empty))

end AsynchronousBlockInputStream

namespace AsynchronousBlockInputStream

/-- A block is being computed, or is about to be, and upstream will raise `e`:
the stream is not started and has no task, or is started with one task
outstanding, and the next `in->read()` throws `e`. -/
def Computing (e : Thrown) (s : AsynchronousBlockInputStream) : Prop :=
  (∃ rest, s.in_ = Except.error e :: rest) ∧
  ((s.started = false ∧ s.pool = 0) ∨ (s.started = true ∧ s.pool = 1))

/-- The computation has ended with the exception `x` stored and no task is
outstanding. -/
def Stored (x : Thrown) (s : AsynchronousBlockInputStream) : Prop :=
  s.started = true ∧ s.pool = 0 ∧ s.exception = some x

end AsynchronousBlockInputStream

/-! ## The wire -/

/-- Modelled from the spec: the packet types a client sends
(`Protocol::Client`), section 6: Hello=0, Query=1, Data=2, Cancel=3, Ping=4. -/
inductive Protocol.Client where
  | Hello
  | Query
  | Data
  | Cancel
  | Ping
deriving DecidableEq, Repr

/-- Modelled from the spec: the numeric code of a client packet type. -/
def Protocol.Client.code : Protocol.Client → Nat
  | .Hello => 0
  | .Query => 1
  | .Data => 2
  | .Cancel => 3
  | .Ping => 4

/-- Modelled from the spec: `Protocol::Compression`, 0 = disabled, 1 = enabled. -/
def Protocol.Compression.Enable : Nat := 1

/-- Modelled from the spec: a packet the server writes (`Protocol::Server`),
with its payload.  Every `send...` function of the handler writes one whole
packet and flushes it. -/
inductive ServerPacket where
  | Hello (name : String) (version_major version_minor revision : Nat)
  | Data (block : Block)
  | Exception (e : Exception)
  | Progress (rows bytes : Nat)
  | Pong
  | EndOfStream
deriving DecidableEq, Repr

/-- Modelled from the spec: what the client has written to the socket, as the
sequence of encoded values the read helpers consume: a varuint, a
length-prefixed string, a fixed-width 64-bit integer, a block in Native
format. -/
inductive Token where
  | varUInt (x : Nat)
  | stringBinary (s : String)
  | intBinary (x : Nat)
  | block (b : Block)
deriving DecidableEq, Repr

/-- The exception of a read at the end of the input. -/
def readAfterEof : Thrown :=
  .dbException ⟨"Attempt to read after eof", .ATTEMPT_TO_READ_AFTER_EOF⟩

/-- The exception of a read that meets a value of another encoding. -/
def cannotRead : Thrown :=
  .dbException ⟨"Cannot read all data", .CANNOT_READ_ALL_DATA⟩

/-- Modelled from the spec: `readVarUInt(x, in)`.  The value read and the input
left; reading consumes the value also when it cannot be decoded. -/
def readVarUInt : List Token → Except Thrown Nat × List Token
  | [] => (.error readAfterEof, [])
  | .varUInt x :: rest => (.ok x, rest)
  | _ :: rest => (.error cannotRead, rest)

/-- Modelled from the spec: `readStringBinary(s, in)`. -/
def readStringBinary : List Token → Except Thrown String × List Token
  | [] => (.error readAfterEof, [])
  | .stringBinary s :: rest => (.ok s, rest)
  | _ :: rest => (.error cannotRead, rest)

/-- Modelled from the spec: `readIntBinary(x, in)` for a `UInt64`. -/
def readIntBinary : List Token → Except Thrown Nat × List Token
  | [] => (.error readAfterEof, [])
  | .intBinary x :: rest => (.ok x, rest)
  | _ :: rest => (.error cannotRead, rest)

/-- Modelled from the spec: `block_in->read()` of the Native format input
stream that `receiveData` creates over the socket. -/
def readBlock : List Token → Except Thrown Block × List Token
  | [] => (.error readAfterEof, [])
  | .block b :: rest => (.ok b, rest)
  | _ :: rest => (.error cannotRead, rest)

/-! ## The collaborators of the handler -/

/-- Modelled from the spec: the settings the handler reads. -/
structure Settings where
  poll_interval : Nat
  interactive_delay : Nat
deriving DecidableEq, Repr

/-- Modelled from the spec: the part of `Context` the handler uses. -/
structure Context where
  settings : Settings
  databases : List String
  current_database : String
deriving DecidableEq, Repr

/-- Modelled from the spec: `Context::isDatabaseExist`. -/
def Context.isDatabaseExist (c : Context) (name : String) : Bool :=
  c.databases.contains name

/-- Modelled from the spec: `Context::setCurrentDatabase`. -/
def Context.setCurrentDatabase (c : Context) (name : String) : Context :=
  { c with current_database := name }

/-- Modelled from the spec: a call of a callback that the root profiling
stream makes during one `read()`: the cancellation callback or the progress
callback, with the reading of the clock (in nanoseconds) at that moment. -/
inductive Callback where
  | isQueryCancelled (now : Nat)
  | sendProgress (rows bytes now : Nat)
deriving DecidableEq, Repr

/-- Modelled from the spec: one `read()` of the root of the pipeline, seen from
the handler: the callbacks it calls (when they are installed) and then the
block it returns or the exception it throws. -/
structure ReadStep where
  callbacks : List Callback
  result : Except Thrown Block

/-- Modelled from the spec: the input stream `state.io.in`.  `profiling` says
whether `dynamic_cast<IProfilingBlockInputStream *>` succeeds; `steps` are its
successive `read()` calls, after which it yields the terminator. -/
structure QueryInputStream where
  profiling : Bool
  steps : List ReadStep

/-- Modelled from the spec: a call received by an `IBlockOutputStream`. -/
inductive OutputCall where
  | writePrefix
  | write (block : Block)
  | writeSuffix
deriving DecidableEq, Repr

/-- Modelled from the spec: a call as an output stream records it: the call,
and how many packets the server had written to the client when the call was
made.  The count is a history annotation; it orders the calls of the output
stream against the packets on the wire. -/
structure OutputRecord where
  call : OutputCall
  packets_written : Nat
deriving DecidableEq, Repr

/-- Modelled from the spec: the output stream `state.io.out`, as the calls it
has received so far, in order. -/
abbrev IBlockOutputStream := List OutputRecord

/-- The structure `BlockIO` that `executeQuery` returns. -/
structure BlockIO where
  in_ : Option QueryInputStream
  out : Option IBlockOutputStream
  in_sample : Block
  out_sample : Block

/-- The default-constructed `BlockIO`. -/
def BlockIO.init : BlockIO :=
  { in_ := none, out := none, in_sample := Block.empty, out_sample := Block.empty }

/-- Modelled from the spec: `QueryState` of `TCPHandler.h` (the header is not
among the sources), with the members that `TCPHandler.cpp` uses.
`maybe_compressed_in` and `maybe_compressed_out` record whether the buffer was
created compressed; `block_in` and `block_out` record the sample block the
codec was created with. -/
structure QueryState where
  query_id : Nat
  stage : Nat
  compression : Nat
  maybe_compressed_in : Option Bool
  block_in : Option Block
  maybe_compressed_out : Option Bool
  block_out : Option Block
  query : String
  io : BlockIO
  context : Context
  is_cancelled : Bool
  sent_all_data : Bool
  rows_processed : Nat
  bytes_processed : Nat
  exception : Option Exception

/-- What `TCPHandler.cpp` uses and does not define: the query executor, the
predicate `QueryState::empty()`, the context of the server, the context of a
default-constructed `QueryState`, and the constants of the server Hello. -/
structure Externals where
  executeQuery : String → Context → Nat → Except Thrown BlockIO
  empty : QueryState → Bool
  global_context : Context
  default_context : Context
  DBMS_NAME : String
  DBMS_VERSION_MAJOR : Nat
  DBMS_VERSION_MINOR : Nat
  revision : Nat

/-- Modelled from the spec: the default-constructed `QueryState()`. -/
def QueryState.init (ext : Externals) : QueryState :=
  { query_id := 0, stage := 2, compression := 0, maybe_compressed_in := none, block_in := none,
    maybe_compressed_out := none, block_out := none, query := "", io := BlockIO.init,
    context := ext.default_context, is_cancelled := false, sent_all_data := false,
    rows_processed := 0, bytes_processed := 0, exception := none }

/-- The members of `TCPHandler`.  `in_` is the socket input: what the client
has sent and the handler has not read yet.  `out` is what the handler has
written.  The two stopwatches are the clock readings of their last restart.
`clock` is the reading of the clock when the packet of the query arrives.
`daemon_is_cancelled` is `Daemon::instance().isCancelled()`.  The last two
fields are history variables, not members of the class: the totals of the
`rows` and `bytes` arguments of all calls of `sendProgress` so far. -/
structure TCPHandler where
  in_ : List Token
  out : List ServerPacket
  connection_context : Context
  default_database : String
  state : QueryState
  after_check_cancelled : Nat
  after_send_progress : Nat
  clock : Nat
  daemon_is_cancelled : Bool
  reported_rows : Nat
  reported_bytes : Nat

/-- The result of a handler function that may throw: the value or the
exception, and the handler as it is left. -/
abbrev Res (α : Type) := Except Thrown α × TCPHandler

namespace TCPHandler

/-- The exception `Exception("Unexpected packet from client", UNEXPECTED_PACKET_FROM_CLIENT)`
and its variants with another message. -/
def unexpectedPacket (message : String) : Thrown :=
  .dbException ⟨message, .UNEXPECTED_PACKET_FROM_CLIENT⟩

/-- The exception `Exception("Unknown packet from client", UNKNOWN_PACKET_FROM_CLIENT)`. -/
def unknownPacket : Thrown :=
  .dbException ⟨"Unknown packet from client", .UNKNOWN_PACKET_FROM_CLIENT⟩

/-- The call `state.reset()`. -/
def resetState (ext : Externals) (h : TCPHandler) : TCPHandler :=
  { h with state := QueryState.init ext }

/-- Modelled from the spec: `in->poll(timeout)`, true iff at least one byte is
readable without blocking. -/
def inPoll (h : TCPHandler) : Bool := !h.in_.isEmpty

/-- The method `TCPHandler::sendHello`. -/
def sendHello (ext : Externals) (h : TCPHandler) : TCPHandler :=
  { h with out := h.out ++ [.Hello ext.DBMS_NAME ext.DBMS_VERSION_MAJOR ext.DBMS_VERSION_MINOR
                              ext.revision] }

/-- The method `TCPHandler::sendData`: create the Native output codec on first
use (compressed or not), then write one `Data` packet with the block. -/
def sendData (block : Block) (h : TCPHandler) : TCPHandler :=
  let h1 : TCPHandler :=
    if h.state.block_out.isNone then
      { h with state := { h.state with
          maybe_compressed_out := some (h.state.compression == Protocol.Compression.Enable),
          block_out := some h.state.io.in_sample } }
    else h
  { h1 with out := h1.out ++ [.Data block] }

/-- The method `TCPHandler::sendException`. -/
def sendException (e : Exception) (h : TCPHandler) : TCPHandler :=
  { h with out := h.out ++ [.Exception e] }

/-- The method `TCPHandler::sendEndOfStream`. -/
def sendEndOfStream (h : TCPHandler) : TCPHandler :=
  { h with state := { h.state with sent_all_data := true }, out := h.out ++ [.EndOfStream] }

/-- The method `TCPHandler::sendProgress(rows, bytes)`, called when the clock
reads `now`.  The accumulators are `size_t`, so the additions are modulo
`2 ^ 64`.  The call also adds its arguments to the history variables. -/
def sendProgress (rows bytes now : Nat) (h : TCPHandler) : TCPHandler :=
  let h1 : TCPHandler :=
    { h with
        reported_rows := h.reported_rows + rows
        reported_bytes := h.reported_bytes + bytes
        state := { h.state with
          rows_processed := (h.state.rows_processed + rows) % 2 ^ 64,
          bytes_processed := (h.state.bytes_processed + bytes) % 2 ^ 64 } }
  if h1.state.sent_all_data then
    h1
  else if (now - h1.after_send_progress) / 1000 < h1.state.context.settings.interactive_delay then
    h1
  else
    { h1 with
        after_send_progress := now
        out := h1.out ++ [.Progress h1.state.rows_processed h1.state.bytes_processed]
        state := { h1.state with rows_processed := 0, bytes_processed := 0 } }

/-- The method `TCPHandler::isQueryCancelled`, called when the clock reads `now`. -/
def isQueryCancelled (ext : Externals) (now : Nat) (h : TCPHandler) : Res Bool :=
  if h.state.is_cancelled || h.state.sent_all_data then
    (.ok true, h)
  else if (now - h.after_check_cancelled) / 1000 < h.state.context.settings.interactive_delay then
    (.ok false, h)
  else
    let h1 : TCPHandler := { h with after_check_cancelled := now }
    if inPoll h1 then
      match readVarUInt h1.in_ with
      | (.error e, in1) => (.error e, { h1 with in_ := in1 })
      | (.ok packet_type, in1) =>
        let h2 : TCPHandler := { h1 with in_ := in1 }
        if packet_type = Protocol.Client.Cancel.code then
          if ext.empty h2.state then
            (.error (unexpectedPacket "Unexpected packet Cancel received from client"), h2)
          else
            (.ok true, { h2 with state := { h2.state with is_cancelled := true } })
        else
          (.error unknownPacket, h2)
    else
      (.ok false, h1)

/-- A call through `state.io.out->`: the output stream receives the call and
records it with the number of packets written to the client so far.
Dereferencing the null pointer throws (`Poco::NullPointerException`). -/
def outputCall (c : OutputCall) (h : TCPHandler) : Res Unit :=
  match h.state.io.out with
  | none => (.error (.pocoException "Null pointer" 0), h)
  | some calls =>
    (.ok (), { h with state := { h.state with
        io := { h.state.io with out := some (calls ++ [⟨c, h.out.length⟩]) } } })

/-- The method `TCPHandler::receiveData`. -/
def receiveData (h : TCPHandler) : Res Bool :=
  let h1 : TCPHandler :=
    if h.state.block_in.isNone then
      { h with state := { h.state with
          maybe_compressed_in := some (h.state.compression == Protocol.Compression.Enable),
          block_in := some h.state.io.out_sample } }
    else h
  match readBlock h1.in_ with
  | (.error e, in1) => (.error e, { h1 with in_ := in1 })
  | (.ok block, in1) =>
    let h2 : TCPHandler := { h1 with in_ := in1 }
    if !block.isEmpty then
      match outputCall (.write block) h2 with
      | (.error e, h3) => (.error e, h3)
      | (.ok (), h3) => (.ok true, h3)
    else
      (.ok false, h2)

/-- The method `TCPHandler::receiveQuery`.  `stage` and `compression` are read
as `UInt64` and converted to the enumerations `QueryProcessingStage::Enum` and
`Protocol::Compression::Enum`, which keeps their low 32 bits. -/
def receiveQuery (ext : Externals) (h : TCPHandler) : Res Unit :=
  match readIntBinary h.in_ with
  | (.error e, in1) => (.error e, { h with in_ := in1 })
  | (.ok query_id, in1) =>
    let h1 : TCPHandler := { h with in_ := in1, state := { h.state with query_id := query_id } }
    match readVarUInt h1.in_ with
    | (.error e, in2) => (.error e, { h1 with in_ := in2 })
    | (.ok stage, in2) =>
      let h2 : TCPHandler :=
        { h1 with in_ := in2, state := { h1.state with stage := stage % 2 ^ 32 } }
      match readVarUInt h2.in_ with
      | (.error e, in3) => (.error e, { h2 with in_ := in3 })
      | (.ok compression, in3) =>
        let h3 : TCPHandler :=
          { h2 with in_ := in3
                    state := { h2.state with compression := compression % 2 ^ 32 } }
        match readStringBinary h3.in_ with
        | (.error e, in4) => (.error e, { h3 with in_ := in4 })
        | (.ok query, in4) =>
          let h4 : TCPHandler :=
            { h3 with in_ := in4
                      state := { h3.state with query := query, context := h3.connection_context } }
          match ext.executeQuery h4.state.query h4.state.context h4.state.stage with
          | .error e => (.error e, h4)
          | .ok io => (.ok (), { h4 with state := { h4.state with io := io } })

/-- The loop of `TCPHandler::receivePacket`, by recursion on the socket input
`input` (which is `h.in_`): a Ping is answered and the next packet is read. -/
def receivePacketFrom (ext : Externals) : List Token → TCPHandler → Res Bool
  | [], h => (.error readAfterEof, h)
  | .varUInt packet_type :: rest, h =>
    let h1 : TCPHandler := { h with in_ := rest }
    if packet_type = Protocol.Client.Query.code then
      if !ext.empty h1.state then
        (.error (unexpectedPacket "Unexpected packet Query received from client"), h1)
      else
        match receiveQuery ext h1 with
        | (.error e, h2) => (.error e, h2)
        | (.ok (), h2) => (.ok true, h2)
    else if packet_type = Protocol.Client.Data.code then
      if ext.empty h1.state then
        (.error (unexpectedPacket "Unexpected packet Data received from client"), h1)
      else
        receiveData h1
    else if packet_type = Protocol.Client.Ping.code then
      receivePacketFrom ext rest { h1 with out := h1.out ++ [.Pong] }
    else
      (.error unknownPacket, h1)
  | _ :: rest, h => (.error cannotRead, { h with in_ := rest })

/-- The method `TCPHandler::receivePacket`. -/
def receivePacket (ext : Externals) (h : TCPHandler) : Res Bool :=
  receivePacketFrom ext h.in_ h

end TCPHandler

namespace TCPHandler

/-- One call of an installed callback by the root profiling stream.  The
value that `isQueryCancelled` returns goes to the stream; an exception it
throws propagates through the `read()` of the stream to the handler. -/
def runCallback (ext : Externals) : Callback → TCPHandler → Res Unit
  | .isQueryCancelled now, h =>
    match isQueryCancelled ext now h with
    | (.error e, h1) => (.error e, h1)
    | (.ok _, h1) => (.ok (), h1)
  | .sendProgress rows bytes now, h => (.ok (), sendProgress rows bytes now h)

/-- The callbacks of one `read()`, in order, up to the first that throws. -/
def runCallbacks (ext : Externals) : List Callback → TCPHandler → Res Unit
  | [], h => (.ok (), h)
  | c :: rest, h =>
    match runCallback ext c h with
    | (.error e, h1) => (.error e, h1)
    | (.ok (), h1) => runCallbacks ext rest h1

/-- The loop `while (true) { block = state.io.in->read(); sendData(block);
if (!block) break; }` of `processOrdinaryQuery`, over the `read()` calls the
stream has left.  `installed` says whether the two callbacks were installed. -/
def pullBlocks (ext : Externals) (installed : Bool) : List ReadStep → TCPHandler → Res Unit
  | [], h => (.ok (), sendData Block.empty h)
  | step :: rest, h =>
    match (if installed then runCallbacks ext step.callbacks h else (.ok (), h)) with
    | (.error e, h1) => (.error e, h1)
    | (.ok (), h1) =>
      match step.result with
      | .error e => (.error e, h1)
      | .ok block =>
        if block.isEmpty then
          (.ok (), sendData block h1)
        else
          pullBlocks ext installed rest (sendData block h1)

/-- The method `TCPHandler::processOrdinaryQuery`. -/
def processOrdinaryQuery (ext : Externals) (h : TCPHandler) : Res Unit :=
  match h.state.io.in_ with
  | none => (.ok (), h)
  | some stream => pullBlocks ext stream.profiling stream.steps h

/-- The loop `while (receivePacket()) ;` of `processInsertQuery`.  Every
packet takes at least one value from the socket input, so `fuel` is taken to
be the length of the input; with no fuel left the input is empty and
`receivePacket` throws. -/
def receivePackets (ext : Externals) : Nat → TCPHandler → Res Unit
  | 0, h =>
    match receivePacket ext h with
    | (.error e, h1) => (.error e, h1)
    | (.ok _, h1) => (.ok (), h1)
  | fuel + 1, h =>
    match receivePacket ext h with
    | (.error e, h1) => (.error e, h1)
    | (.ok true, h1) => receivePackets ext fuel h1
    | (.ok false, h1) => (.ok (), h1)

/-- The method `TCPHandler::processInsertQuery`. -/
def processInsertQuery (ext : Externals) (h : TCPHandler) : Res Unit :=
  let h1 := sendData h.state.io.out_sample h
  match outputCall .writePrefix h1 with
  | (.error e, h2) => (.error e, h2)
  | (.ok (), h2) =>
    match receivePackets ext h2.in_.length h2 with
    | (.error e, h3) => (.error e, h3)
    | (.ok (), h3) => outputCall .writeSuffix h3

/-- The `try` block of the main loop of `runImpl`: receive the packet of the
query, restart the two stopwatches, run the query, send `EndOfStream`. -/
def tryQuery (ext : Externals) (h : TCPHandler) : Res Unit :=
  match receivePacket ext h with
  | (.error e, h1) => (.error e, h1)
  | (.ok _, h1) =>
    let h2 : TCPHandler :=
      { h1 with after_check_cancelled := h1.clock, after_send_progress := h1.clock }
    match (if h2.state.io.out.isSome then processInsertQuery ext h2
           else processOrdinaryQuery ext h2) with
    | (.error e, h3) => (.error e, h3)
    | (.ok (), h3) => (.ok (), sendEndOfStream h3)

/-- The four `catch` clauses after the `try` block: each stores an exception
in `state.exception`; the first rethrows when the code is
`UNKNOWN_PACKET_FROM_CLIENT`. -/
def catchQuery : Thrown → TCPHandler → Res Unit
  | .dbException e, h =>
    let h1 : TCPHandler := { h with state := { h.state with exception := some e } }
    if e.code = .UNKNOWN_PACKET_FROM_CLIENT then (.error (.dbException e), h1) else (.ok (), h1)
  | .pocoException message code, h =>
    (.ok (), { h with state := { h.state with exception := some ⟨message, .other code⟩ } })
  | .stdException what, h =>
    (.ok (), { h with state := { h.state with exception := some ⟨what, .STD_EXCEPTION⟩ } })
  | .unknown, h =>
    (.ok (), { h with state := { h.state with
        exception := some ⟨"Unknown exception", .UNKNOWN_EXCEPTION⟩ } })

/-- One pass through the body of the main loop of `runImpl`, from
`state.reset()` before the `try` to `state.reset()` after it.  The result is
an error when an exception leaves the loop. -/
def queryIteration (ext : Externals) (h : TCPHandler) : Res Unit :=
  let h0 := resetState ext h
  let caughtResult : Res Unit :=
    match tryQuery ext h0 with
    | (.ok (), h1) => (.ok (), h1)
    | (.error t, h1) => catchQuery t h1
  match caughtResult with
  | (.error t, h2) => (.error t, h2)
  | (.ok (), h2) =>
    let h3 : TCPHandler :=
      match h2.state.exception with
      | some e => sendException e h2
      | none => h2
    (.ok (), resetState ext h3)

/-- The main loop `while (1)` of `runImpl`.  The wait for a packet ends when
the input has data, on shutdown, or when the client has disconnected; with
the input used up nothing more arrives and the loop is left.  Every pass
takes at least one value from the input, so `fuel` is taken to be the length
of the input plus one. -/
def mainLoop (ext : Externals) : Nat → TCPHandler → Res Unit
  | 0, h => (.ok (), h)
  | fuel + 1, h =>
    if h.daemon_is_cancelled || h.in_.isEmpty then
      (.ok (), h)
    else
      match queryIteration ext h with
      | (.error t, h1) => (.error t, h1)
      | (.ok (), h1) => mainLoop ext fuel h1

/-- The method `TCPHandler::receiveHello`. -/
def receiveHello (h : TCPHandler) : Res Unit :=
  match readVarUInt h.in_ with
  | (.error e, in1) => (.error e, { h with in_ := in1 })
  | (.ok packet_type, in1) =>
    let h1 : TCPHandler := { h with in_ := in1 }
    if packet_type ≠ Protocol.Client.Hello.code then
      (.error (unexpectedPacket "Unexpected packet from client"), h1)
    else
      match readStringBinary h1.in_ with
      | (.error e, in2) => (.error e, { h1 with in_ := in2 })
      | (.ok _client_name, in2) =>
        match readVarUInt in2 with
        | (.error e, in3) => (.error e, { h1 with in_ := in3 })
        | (.ok _client_version_major, in3) =>
          match readVarUInt in3 with
          | (.error e, in4) => (.error e, { h1 with in_ := in4 })
          | (.ok _client_version_minor, in4) =>
            match readVarUInt in4 with
            | (.error e, in5) => (.error e, { h1 with in_ := in5 })
            | (.ok _client_revision, in5) =>
              match readStringBinary in5 with
              | (.error e, in6) => (.error e, { h1 with in_ := in6 })
              | (.ok default_database, in6) =>
                (.ok (), { h1 with in_ := in6, default_database := default_database })

/-- The method `TCPHandler::runImpl`. -/
def runImpl (ext : Externals) (h : TCPHandler) : Res Unit :=
  let h0 : TCPHandler := { h with connection_context := ext.global_context }
  match receiveHello h0 with
  | (.error e, h1) => (.error e, h1)
  | (.ok (), h1) =>
    if !h1.default_database.isEmpty && !h1.connection_context.isDatabaseExist h1.default_database
    then
      (.ok (), sendException
        ⟨"Database " ++ h1.default_database ++ " doesn't exist", .UNKNOWN_DATABASE⟩ h1)
    else
      let h2 : TCPHandler :=
        if !h1.default_database.isEmpty then
          { h1 with connection_context :=
              h1.connection_context.setCurrentDatabase h1.default_database }
        else h1
      let h3 := sendHello ext h2
      mainLoop ext (h3.in_.length + 1) h3

/-- The method `TCPHandler::run`: `runImpl` inside a `try` whose four `catch`
clauses only write to the log.  When it returns the connection is closed. -/
def run (ext : Externals) (h : TCPHandler) : TCPHandler :=
  (runImpl ext h).2

/-- A handler for a connection that has just been accepted, with the socket
input `input`. -/
def accept (ext : Externals) (input : List Token) : TCPHandler :=
  { in_ := input, out := [], connection_context := ext.global_context, default_database := "",
    state := QueryState.init ext, after_check_cancelled := 0, after_send_progress := 0,
    clock := 0, daemon_is_cancelled := false, reported_rows := 0, reported_bytes := 0 }

end TCPHandler

/-! ### A sample server -/

/-- A sample block of an `Int16` column `x` with no rows. -/
def sampleX : Block :=
  ⟨[{ name := "x", type := typeInt16, column := .full [] }]⟩

/-- A sample context: two databases, an interactive delay of 100000 microseconds. -/
def sampleContext : Context :=
  { settings := { poll_interval := 10, interactive_delay := 100000 },
    databases := ["default", "system"], current_database := "default" }

/-- A pipeline for a SELECT whose root is not a profiling stream and yields
blocks of 3 and 2 rows and then the terminator. -/
def selectPlain : QueryInputStream :=
  { profiling := false,
    steps := [⟨[], .ok blockA123⟩, ⟨[], .ok blockA45⟩, ⟨[], .ok Block.empty⟩] }

/-- A pipeline for a SELECT whose root is a profiling stream: before each
read it consults the cancellation callback and after each block it reports
progress, all within the first 5 microseconds of the query. -/
def selectProfiling : QueryInputStream :=
  { profiling := true,
    steps := [⟨[.isQueryCancelled 1000, .sendProgress 3 6 2000], .ok blockA123⟩,
              ⟨[.isQueryCancelled 3000, .sendProgress 2 4 4000], .ok blockA45⟩,
              ⟨[.isQueryCancelled 5000], .ok Block.empty⟩] }

/-- A pipeline for a SELECT whose root is a profiling stream that reports
progress 0.2 and 0.5 seconds after the start of the query. -/
def selectSlow : QueryInputStream :=
  { profiling := true,
    steps := [⟨[.isQueryCancelled 1000, .sendProgress 3 6 200000000], .ok blockA123⟩,
              ⟨[.isQueryCancelled 200001000, .sendProgress 2 4 500000000], .ok blockA45⟩,
              ⟨[.isQueryCancelled 500001000], .ok Block.empty⟩] }

/-- A sample query executor: three SELECT queries, one INSERT query, and a
syntax error for everything else. -/
def sampleExecuteQuery (query : String) (_context : Context) (_stage : Nat) :
    Except Thrown BlockIO :=
  if query = "SELECT plain" then
    .ok { in_ := some selectPlain, out := none, in_sample := sampleX, out_sample := Block.empty }
  else if query = "SELECT slow" then
    .ok { in_ := some selectSlow, out := none, in_sample := sampleX, out_sample := Block.empty }
  else if query = "SELECT profiling" then
    .ok { in_ := some selectProfiling, out := none, in_sample := sampleX,
          out_sample := Block.empty }
  else if query = "INSERT" then
    .ok { in_ := none, out := some [], in_sample := Block.empty, out_sample := sampleX }
  else
    .error (.dbException ⟨"Syntax error", .other 62⟩)

/-- A sample server: the query state counts as empty when it holds neither an
input nor an output stream. -/
def sampleServer : Externals :=
  { executeQuery := sampleExecuteQuery,
    empty := fun st => st.io.in_.isNone && st.io.out.isNone,
    global_context := sampleContext,
    default_context := sampleContext,
    DBMS_NAME := "ClickHouse", DBMS_VERSION_MAJOR := 0, DBMS_VERSION_MINOR := 0,
    revision := 1 }

/-- The Hello packet of a client, as written to the socket. -/
def clientHello (default_database : String) : List Token :=
  [.varUInt 0, .stringBinary "client", .varUInt 0, .varUInt 0, .varUInt 1,
   .stringBinary default_database]

/-- The Query packet of a client, as written to the socket. -/
def clientQuery (query_id : Nat) (query : String) : List Token :=
  [.varUInt 1, .intBinary query_id, .varUInt 2, .varUInt 0, .stringBinary query]

namespace TCPHandler

/-- The exception that the `catch` clauses of the main loop store in
`state.exception` for a thrown value, and that is then sent to the client. -/
def storedException : Thrown → Exception
  | .dbException e => e
  | .pocoException message code => ⟨message, .other code⟩
  | .stdException what => ⟨what, .STD_EXCEPTION⟩
  | .unknown => ⟨"Unknown exception", .UNKNOWN_EXCEPTION⟩

/-- Whether a thrown value is a `DB::Exception` with the code
`UNKNOWN_PACKET_FROM_CLIENT`. -/
def isUnknownPacket : Thrown → Bool
  | .dbException e => e.code = .UNKNOWN_PACKET_FROM_CLIENT
  | _ => false

end TCPHandler

/-- A handler in the middle of a SELECT: the query packet has been received
and the socket holds what the client sent after it. -/
def duringSelect (after_query : List Token) : TCPHandler :=
  (TCPHandler.receivePacket sampleServer
    (TCPHandler.accept sampleServer (clientQuery 1 "SELECT profiling" ++ after_query))).2

/-! ### Measures on the output -/

/-- Whether a packet is a `Data` packet. -/
def ServerPacket.isData : ServerPacket → Bool
  | .Data _ => true
  | _ => false

/-- Whether a packet is a `Progress` packet. -/
def ServerPacket.isProgress : ServerPacket → Bool
  | .Progress _ _ => true
  | _ => false

/-- Whether a packet is one of those written while a query is received and
run: `Data`, `Progress` or `Pong`. -/
def ServerPacket.isBody : ServerPacket → Bool
  | .Data _ => true
  | .Progress _ _ => true
  | .Pong => true
  | _ => false

/-- The sum of the `rows` values of the `Progress` packets of an output. -/
def progressRows : List ServerPacket → Nat
  | [] => 0
  | .Progress rows _ :: rest => rows + progressRows rest
  | _ :: rest => progressRows rest

/-- The sum of the `bytes` values of the `Progress` packets of an output. -/
def progressBytes : List ServerPacket → Nat
  | [] => 0
  | .Progress _ bytes :: rest => bytes + progressBytes rest
  | _ :: rest => progressBytes rest

/-- No `Data` or `Progress` packet comes after an `EndOfStream` packet. -/
def noDataAfterEndOfStream : List ServerPacket → Bool
  | [] => true
  | .EndOfStream :: rest =>
    rest.all (fun p => !p.isData && !p.isProgress) && noDataAfterEndOfStream rest
  | _ :: rest => noDataAfterEndOfStream rest

/-- The handler `h2` comes from `h1` by steps of receiving and running a
query: the output has grown by `Data`, `Progress` and `Pong` packets only,
and what the new `Progress` packets carry plus what the accumulators hold
accounts for what was reported to `sendProgress` in between, modulo `2 ^ 64`
and never in excess. -/
def Advances (h1 h2 : TCPHandler) : Prop :=
  ∃ new : List ServerPacket,
    h2.out = h1.out ++ new ∧
    (∀ p ∈ new, p.isBody = true) ∧
    (progressRows new + h2.state.rows_processed + h1.reported_rows) % 2 ^ 64
      = (h1.state.rows_processed + h2.reported_rows) % 2 ^ 64 ∧
    progressRows new + h2.state.rows_processed + h1.reported_rows
      ≤ h1.state.rows_processed + h2.reported_rows ∧
    (progressBytes new + h2.state.bytes_processed + h1.reported_bytes) % 2 ^ 64
      = (h1.state.bytes_processed + h2.reported_bytes) % 2 ^ 64 ∧
    progressBytes new + h2.state.bytes_processed + h1.reported_bytes
      ≤ h1.state.bytes_processed + h2.reported_bytes

/-- A handler that has just received the Query packet of the plain sample
SELECT. -/
def afterSelectQuery : TCPHandler :=
  (TCPHandler.receivePacket sampleServer
    (TCPHandler.accept sampleServer (clientQuery 1 "SELECT plain"))).2

/-- A handler that has just received the Query packet of the sample INSERT;
the socket holds what the client sent after it. -/
def afterInsertQuery (after_query : List Token) : TCPHandler :=
  (TCPHandler.receivePacket sampleServer
    (TCPHandler.accept sampleServer (clientQuery 1 "INSERT" ++ after_query))).2

namespace AsynchronousBlockInputStream

/-- Whether a call is made by the consumer: a `poll` or a `read`. -/
def Call.isConsumer : Call → Bool
  | .worker => false
  | _ => true

/-- Whether the result of a `read` is a non-empty block. -/
def returnsBlock : Except Thrown Block → Bool
  | .ok b => !b.isEmpty
  | .error _ => false

/-- The number of reads of a sequence of calls that return a non-empty block. -/
def blocksReturned (s : AsynchronousBlockInputStream) (calls : List Call) : Nat :=
  (reads s calls).countP returnsBlock

/-- The computations of upstream blocks requested so far: those that have
run (`in->read()` was called) and those still scheduled in the pool. -/
def requested (s : AsynchronousBlockInputStream) : Nat :=
  s.in_read_calls + s.pool

/-- The invariant of a stream on which `k` reads have returned a non-empty
block: at most one task is outstanding; while one is outstanding the buffer
`block` is empty; a stream that is not started has no task, an empty buffer,
and has neither read upstream nor scheduled anything; a started stream has
requested `k + 1` computations. -/
def Wellformed (k : Nat) (s : AsynchronousBlockInputStream) : Prop :=
  s.pool ≤ 1 ∧
  (s.pool = 1 → s.block.isEmpty = true) ∧
  (s.started = false →
    s.pool = 0 ∧ s.block.isEmpty = true ∧ s.in_read_calls = 0 ∧ s.schedule_calls = 0 ∧ k = 0) ∧
  (s.started = true → requested s = k + 1)

/-- The stream has returned the terminator: it is started, no task is
outstanding, no exception is stored and the buffer is empty. -/
def Terminated (s : AsynchronousBlockInputStream) : Prop :=
  s.started = true ∧ s.pool = 0 ∧ s.exception = none ∧ s.block.isEmpty = true

end AsynchronousBlockInputStream

/-- An upstream that yields a block of 3 rows, the terminator, and would
yield a block of 2 rows if it were read after the terminator. -/
def upstreamPastEnd : IBlockInputStream :=
  [Except.ok blockA123, Except.ok Block.empty, Except.ok blockA45]

theorem Block.has_eq_false_iff (b : Block) (name : String) :
    b.has name = false ↔ ∀ c ∈ b.data, c.name ≠ name := by
  simp [Block.has]

theorem Block.has_snoc (d : List ColumnWithNameAndType) (c : ColumnWithNameAndType)
    (name : String) :
    (Block.mk (d ++ [c])).has name = ((Block.mk d).has name || (c.name == name)) := by
  simp [Block.has]

theorem Block.rows_snoc (b : Block) (c : ColumnWithNameAndType) (hne : b.isEmpty = false) :
    (Block.mk (b.data ++ [c])).rows = b.rows := by
  cases b with
  | mk d =>
    cases d with
    | nil => simp [Block.isEmpty] at hne
    | cons x xs => simp [Block.rows]

theorem Block.filter_eq_nil_of_has_false (b : Block) (name : String)
    (h : b.has name = false) :
    b.data.filter (fun c => c.name == name) = [] := by
  rw [Block.has_eq_false_iff] at h
  simp only [List.filter_eq_nil_iff]
  intro c hc
  simpa using h c hc

namespace AddingDefaultBlockInputStream

theorem addColumn_of_has (it : String × DataType) (res : Block) (h : res.has it.1 = true) :
    addColumn it res = .ok res := by
  simp [addColumn, h]

theorem addColumn_of_not_has (it : String × DataType) (res : Block)
    (h : res.has it.1 = false) (hne : res.isEmpty = false) :
    addColumn it res = .ok ⟨res.data ++ [defaultColumn it.1 it.2 res.rows]⟩ := by
  simp [addColumn, h, DataType.createConstColumn, Column.convertToFullColumn, Block.insert,
    hne, Column.size, defaultColumn]

/-- What the loop of `readImpl` does to a block that has columns: it never
throws, it appends columns after those of the block, each appended column is
the default column of an entry of `required_columns` whose name the block did
not have, and a name the block did not have gets exactly the default column of
the first entry with that name. -/
theorem addColumns_spec (R : NamesAndTypesList) :
    ∀ res : Block, res.isEmpty = false →
      ∃ added : List ColumnWithNameAndType,
        addColumns R res = .ok ⟨res.data ++ added⟩ ∧
        (∀ c ∈ added, res.has c.name = false ∧ (c.name, c.type) ∈ R ∧
          c = defaultColumn c.name c.type res.rows) ∧
        (∀ name type, R.find? (fun p => p.1 == name) = some (name, type) →
          res.has name = false →
          added.filter (fun c => c.name == name) = [defaultColumn name type res.rows]) := by
  induction R with
  | nil =>
    intro res _
    refine ⟨[], by simp [addColumns], by simp, by simp⟩
  | cons it rest ih =>
    intro res hne
    by_cases hhas : res.has it.1 = true
    · obtain ⟨added, hrun, hadded, hfirst⟩ := ih res hne
      refine ⟨added, ?_, ?_, ?_⟩
      · simp [addColumns, addColumn_of_has it res hhas, hrun]
      · intro c hc
        obtain ⟨h1, h2, h3⟩ := hadded c hc
        exact ⟨h1, List.mem_cons_of_mem _ h2, h3⟩
      · intro name type hfind hn
        have hne1 : (it.1 == name) = false := by
          by_contra hcon
          simp only [Bool.not_eq_false, beq_iff_eq] at hcon
          rw [hcon] at hhas
          rw [hhas] at hn
          exact Bool.noConfusion hn
        rw [List.find?_cons, hne1] at hfind
        exact hfirst name type hfind hn
    · have hhas : res.has it.1 = false := by simpa using hhas
      have hne1 : (Block.mk (res.data ++ [defaultColumn it.1 it.2 res.rows])).isEmpty = false := by
        simp [Block.isEmpty]
      have hrows : (Block.mk (res.data ++ [defaultColumn it.1 it.2 res.rows])).rows = res.rows :=
        Block.rows_snoc res _ hne
      obtain ⟨added, hrun, hadded, hfirst⟩ := ih _ hne1
      rw [hrows] at hadded hfirst
      have hold : ∀ c ∈ added, res.has c.name = false ∧ (it.1 == c.name) = false := by
        intro c hc
        have h := (hadded c hc).1
        rw [Block.has_snoc] at h
        simpa [defaultColumn] using h
      refine ⟨defaultColumn it.1 it.2 res.rows :: added, ?_, ?_, ?_⟩
      · simp [addColumns, addColumn_of_not_has it res hhas hne, hrun]
      · intro c hc
        rcases List.mem_cons.mp hc with hc | hc
        · subst hc
          exact ⟨hhas, by simp [defaultColumn], by simp [defaultColumn]⟩
        · obtain ⟨_, h2, h3⟩ := hadded c hc
          exact ⟨(hold c hc).1, List.mem_cons_of_mem _ h2, h3⟩
      · intro name type hfind hn
        by_cases heq : (it.1 == name) = true
        · rw [List.find?_cons, heq] at hfind
          have hit : it = (name, type) := by simpa using hfind
          subst hit
          have hnil : added.filter (fun c => c.name == name) = [] := by
            simp only [List.filter_eq_nil_iff]
            intro c hc
            intro h
            have h2 := (hold c hc).2
            have h3 : c.name = name := by simpa using h
            rw [h3] at h2
            simp at h2
          have hself : ((defaultColumn name type res.rows).name == name) = true := by
            simp [defaultColumn]
          simp only [List.filter_cons, hself, if_true, hnil]
        · have heq : (it.1 == name) = false := by simpa using heq
          rw [List.find?_cons, heq] at hfind
          have hn1 : (Block.mk (res.data ++ [defaultColumn it.1 it.2 res.rows])).has name
              = false := by
            rw [Block.has_snoc, hn]
            simpa [defaultColumn] using heq
          have hself : ((defaultColumn it.1 it.2 res.rows).name == name) = false := by
            simpa [defaultColumn] using heq
          simp only [List.filter_cons, hself, Bool.false_eq_true, if_false]
          exact hfirst name type hfind hn1

end AddingDefaultBlockInputStream

theorem Block.rows_append (b : Block) (added : List ColumnWithNameAndType)
    (hne : b.isEmpty = false) :
    (Block.mk (b.data ++ added)).rows = b.rows := by
  cases b with
  | mk d =>
    cases d with
    | nil => simp [Block.isEmpty] at hne
    | cons x xs => simp [Block.rows]

theorem Block.has_of_filter_ne_nil (b : Block) (name : String)
    (h : b.data.filter (fun c => c.name == name) ≠ []) : b.has name = true := by
  by_contra hcon
  have hfalse : b.has name = false := by simpa using hcon
  exact h (Block.filter_eq_nil_of_has_false b name hfalse)

/-! ## AddingDefaultBlockInputStream.readImpl -/

/-- C1 (amended).  For every required schema `R` and every non-empty upstream
block `B`, `readImpl` returns `B` with columns appended: the columns of `B`
are unchanged, the row count is `B.rows`, every name of `R` is present, every
appended column is materialized and has `B.rows` rows, and a name that `B`
does not have gets exactly one column, holding `B.rows` copies of the default
value of the type of the FIRST entry of `R` with that name. -/
theorem AddingDefaultBlockInputStream.readImpl_adds_defaults
    (R : NamesAndTypesList) (B : Block) (rest : IBlockInputStream)
    (hB : B.isEmpty = false) :
    ∃ added : List ColumnWithNameAndType,
      AddingDefaultBlockInputStream.readImpl ⟨.ok B :: rest, R⟩
        = (.ok ⟨B.data ++ added⟩, ⟨rest, R⟩) ∧
      (Block.mk (B.data ++ added)).rows = B.rows ∧
      (∀ p ∈ R, (Block.mk (B.data ++ added)).has p.1 = true) ∧
      (∀ c ∈ added, c.column.isFull = true ∧ c.column.size = B.rows ∧
        (c.name, c.type) ∈ R ∧ B.has c.name = false) ∧
      (∀ name type, R.find? (fun p => p.1 == name) = some (name, type) →
        B.has name = false →
        (B.data ++ added).filter (fun c => c.name == name)
          = [AddingDefaultBlockInputStream.defaultColumn name type B.rows]) := by
  obtain ⟨added, hrun, hadded, hfirst⟩ :=
    AddingDefaultBlockInputStream.addColumns_spec R B hB
  have hfilter : ∀ name type, R.find? (fun p => p.1 == name) = some (name, type) →
      B.has name = false →
      (B.data ++ added).filter (fun c => c.name == name)
        = [AddingDefaultBlockInputStream.defaultColumn name type B.rows] := by
    intro name type hfind hn
    rw [List.filter_append, Block.filter_eq_nil_of_has_false B name hn, List.nil_append]
    exact hfirst name type hfind hn
  refine ⟨added, ?_, Block.rows_append B added hB, ?_, ?_, hfilter⟩
  · simp [AddingDefaultBlockInputStream.readImpl, IBlockInputStream.read, hB, hrun]
  · intro p hp
    by_cases hhas : B.has p.1 = true
    · have h := hhas
      simp only [Block.has, List.any_eq_true] at h ⊢
      obtain ⟨c, hc, hcn⟩ := h
      exact ⟨c, List.mem_append_left _ hc, hcn⟩
    · have hhas : B.has p.1 = false := by simpa using hhas
      cases hf : R.find? (fun q => q.1 == p.1) with
      | none =>
        rw [List.find?_eq_none] at hf
        have := hf p hp
        simp at this
      | some q =>
        have hq : q.1 = p.1 := by
          have := List.find?_some hf
          simpa using this
        have hq2 : q = (p.1, q.2) := by
          rw [← hq]
        rw [hq2] at hf
        apply Block.has_of_filter_ne_nil
        rw [hfilter p.1 q.2 hf hhas]
        simp
  · intro c hc
    obtain ⟨h1, h2, h3⟩ := hadded c hc
    refine ⟨?_, ?_, h2, h1⟩
    · rw [h3]; rfl
    · rw [h3]; simp [AddingDefaultBlockInputStream.defaultColumn, Column.size]

/-- Witness for C1 on the example of the specification: required schema
`[(a, Int16), (b, String)]`, upstream block `a = [1, 2, 3]`. -/
theorem AddingDefaultBlockInputStream.readImpl_adds_defaults_witness :
    blockA123.isEmpty = false ∧
    (AddingDefaultBlockInputStream.readImpl ⟨[.ok blockA123], schemaAB⟩).1
      = .ok ⟨[{ name := "a", type := typeInt16, column := .full [.int 1, .int 2, .int 3] },
              { name := "b", type := typeString, column := .full [.str "", .str "", .str ""] }]⟩ ∧
    ∃ added : List ColumnWithNameAndType,
      AddingDefaultBlockInputStream.readImpl ⟨.ok blockA123 :: [], schemaAB⟩
        = (.ok ⟨blockA123.data ++ added⟩, ⟨[], schemaAB⟩) ∧
      (Block.mk (blockA123.data ++ added)).rows = blockA123.rows :=
  ⟨by decide, by rfl,
    (AddingDefaultBlockInputStream.readImpl_adds_defaults schemaAB blockA123 [] (by decide)).imp
      (fun _ h => ⟨h.1, h.2.1⟩)⟩

/-- C1 as stated fails when `R` lists a name twice with different types: with
`R = [(b, String), (b, Int16)]` and `B = {a = [1, 2, 3]}` the entry `(b, Int16)`
is in `R` and `B` has no `b`, yet the output holds no column `b` made of three
copies of the default of `Int16`; its only column `b` holds three empty strings. -/
theorem AddingDefaultBlockInputStream.readImpl_duplicate_name_counterexample :
    ∃ out : Block,
      (AddingDefaultBlockInputStream.readImpl ⟨[.ok blockA123], schemaBB⟩).1 = .ok out ∧
      ("b", typeInt16) ∈ schemaBB ∧ blockA123.has "b" = false ∧
      out.data.filter (fun c => c.name == "b")
        = [{ name := "b", type := typeString, column := .full [.str "", .str "", .str ""] }] ∧
      ¬ ∃ c ∈ out.data, c.name = "b" ∧
          c.column = .full (List.replicate blockA123.rows typeInt16.getDefault) := by
  refine ⟨⟨[{ name := "a", type := typeInt16, column := .full [.int 1, .int 2, .int 3] },
            { name := "b", type := typeString, column := .full [.str "", .str "", .str ""] }]⟩,
    by rfl, by decide, by decide, by decide, by decide⟩

/-! ## AsynchronousBlockInputStream: the block sequence -/

namespace AsynchronousBlockInputStream

theorem calculate_cons (s : AsynchronousBlockInputStream) (b : Block)
    (rest : IBlockInputStream) (h : s.in_ = .ok b :: rest) :
    calculate s = { s with in_ := rest, in_read_calls := s.in_read_calls + 1, block := b,
                           ready := true } := by
  simp [calculate, IBlockInputStream.read, h]

theorem calculate_tail (s : AsynchronousBlockInputStream) (tail : IBlockInputStream)
    (htail : (IBlockInputStream.read tail).1 = .ok Block.empty) (h : s.in_ = tail) :
    calculate s = { s with in_ := (IBlockInputStream.read tail).2,
                           in_read_calls := s.in_read_calls + 1, block := Block.empty,
                           ready := true } := by
  unfold calculate
  rw [h]
  rcases hr : IBlockInputStream.read tail with ⟨r, in1⟩
  rw [hr] at htail
  simp only at htail
  subst htail
  rfl

/-- Running the computation on a stream that is idle or running makes it ready
or terminated, for the same blocks to return. -/
theorem serves_calculate (tail : IBlockInputStream)
    (htail : (IBlockInputStream.read tail).1 = .ok Block.empty)
    (rem : List Block) (s t : AsynchronousBlockInputStream)
    (hexc : s.exception = none) (hin : s.in_ = rem.map Except.ok ++ tail)
    (ht1 : t.exception = (calculate s).exception) (ht2 : t.block = (calculate s).block)
    (ht3 : t.in_ = (calculate s).in_) (ht4 : t.started = true) (ht5 : t.pool = 0) :
    Serves tail rem t ∧ t.exception = none ∧ t.block = rem.headD Block.empty ∧
      (∀ b rem1, rem = b :: rem1 → t.in_ = rem1.map Except.ok ++ tail) := by
  cases rem with
  | nil =>
    have h : s.in_ = tail := by simpa using hin
    rw [calculate_tail s tail htail h] at ht1 ht2 ht3
    simp only at ht1 ht2 ht3
    refine ⟨⟨ht1.trans hexc, ?_⟩, ht1.trans hexc, ht2, ?_⟩
    · right; right; right
      exact ⟨ht4, ht5, rfl, ht2⟩
    · intro b rem1 hb
      exact List.noConfusion hb
  | cons b rem1 =>
    have h : s.in_ = .ok b :: (rem1.map Except.ok ++ tail) := by simpa using hin
    rw [calculate_cons s b _ h] at ht1 ht2 ht3
    simp only at ht1 ht2 ht3
    refine ⟨⟨ht1.trans hexc, ?_⟩, ht1.trans hexc, ht2, ?_⟩
    · right; right; left
      exact ⟨ht4, ht5, b, rem1, rfl, ht2, ht3⟩
    · intro b2 rem2 hb
      injection hb with hb1 hb2
      rw [← hb2]
      exact ht3

theorem calculate_started (s : AsynchronousBlockInputStream) :
    (calculate s).started = s.started := by
  unfold calculate
  split <;> rfl

theorem serves_worker (tail : IBlockInputStream)
    (htail : (IBlockInputStream.read tail).1 = .ok Block.empty)
    (rem : List Block) (s : AsynchronousBlockInputStream) (h : Serves tail rem s) :
    Serves tail rem (worker s) := by
  obtain ⟨hexc, hph⟩ := h
  rcases hph with ⟨h1, h2, h3⟩ | ⟨h1, h2, h3⟩ | ⟨h1, h2, h3⟩ | ⟨h1, h2, h3⟩
  · simp only [worker, h2]
    exact ⟨hexc, Or.inl ⟨h1, h2, h3⟩⟩
  · simp only [worker, h2]
    exact (serves_calculate tail htail rem s { calculate s with pool := 0 } hexc h3 rfl rfl rfl
      ((calculate_started s).trans h1) rfl).1
  · simp only [worker, h2]
    exact ⟨hexc, Or.inr (Or.inr (Or.inl ⟨h1, h2, h3⟩))⟩
  · simp only [worker, h2]
    exact ⟨hexc, Or.inr (Or.inr (Or.inr ⟨h1, h2, h3⟩))⟩

theorem serves_poll (tail : IBlockInputStream)
    (htail : (IBlockInputStream.read tail).1 = .ok Block.empty)
    (rem : List Block) (s : AsynchronousBlockInputStream) (h : Serves tail rem s)
    (milliseconds : Nat) (worker_finishes : Bool) :
    Serves tail rem (poll milliseconds worker_finishes s).2 := by
  have h1 : Serves tail rem (if !s.started then { next s with started := true } else s) := by
    obtain ⟨hexc, hph⟩ := h
    rcases hph with ⟨h1, h2, h3⟩ | ⟨h1, h2, h3⟩ | ⟨h1, h2, h3⟩ | ⟨h1, h2, h3⟩
    · simp only [h1, Bool.not_false, if_true]
      refine ⟨hexc, Or.inr (Or.inl ⟨rfl, ?_, h3⟩)⟩
      simp [next, h2]
    · simp only [h1, Bool.not_true, Bool.false_eq_true, if_false]
      exact ⟨hexc, Or.inr (Or.inl ⟨h1, h2, h3⟩)⟩
    · simp only [h1, Bool.not_true, Bool.false_eq_true, if_false]
      exact ⟨hexc, Or.inr (Or.inr (Or.inl ⟨h1, h2, h3⟩))⟩
    · simp only [h1, Bool.not_true, Bool.false_eq_true, if_false]
      exact ⟨hexc, Or.inr (Or.inr (Or.inr ⟨h1, h2, h3⟩))⟩
  unfold poll
  cases worker_finishes with
  | false => exact h1
  | true => exact serves_worker tail htail rem _ h1

theorem calculate_pool (s : AsynchronousBlockInputStream) :
    (calculate s).pool = s.pool := by
  unfold calculate
  split <;> rfl

theorem readImpl_eq_deliver (s : AsynchronousBlockInputStream) :
    readImpl s
      = deliver (if !s.started then { calculate s with started := true } else poolWait s) :=
  rfl

/-- Handing out the buffered block: a stream that is started, has no task
outstanding, no exception, and buffers the head of `rem` (the empty block
when `rem` is empty) returns that block and then serves the rest of `rem`. -/
theorem serves_deliver (tail : IBlockInputStream) (rem : List Block)
    (hrem : ∀ b ∈ rem, b.isEmpty = false) (t : AsynchronousBlockInputStream)
    (ht1 : t.exception = none) (ht2 : t.block = rem.headD Block.empty)
    (ht3 : ∀ b rem1, rem = b :: rem1 → t.in_ = rem1.map Except.ok ++ tail)
    (ht4 : t.started = true) (ht5 : t.pool = 0) :
    (deliver t).1 = .ok (rem.headD Block.empty) ∧ Serves tail rem.tail (deliver t).2 := by
  cases rem with
  | nil =>
    have hb : t.block = Block.empty := ht2
    have he : t.block.isEmpty = true := by rw [hb]; rfl
    simp only [deliver, ht1, he, if_true, List.headD_nil, List.tail_nil]
    exact ⟨by rw [hb], ht1, Or.inr (Or.inr (Or.inr ⟨ht4, ht5, rfl, hb⟩))⟩
  | cons b rem1 =>
    have hb : t.block = b := ht2
    have he : t.block.isEmpty = false := by
      rw [hb]; exact hrem b (List.mem_cons_self _ _)
    simp only [deliver, ht1, he, Bool.false_eq_true, if_false, List.headD_cons, List.tail_cons]
    refine ⟨by rw [hb], rfl, Or.inr (Or.inl ⟨ht4, ?_, ht3 b rem1 rfl⟩)⟩
    simp [next, ht5]

/-- One `read` of a stream that serves `rem` returns the head of `rem` (the
terminator when `rem` is empty) and leaves a stream that serves the rest. -/
theorem serves_read (tail : IBlockInputStream)
    (htail : (IBlockInputStream.read tail).1 = .ok Block.empty)
    (rem : List Block) (hrem : ∀ b ∈ rem, b.isEmpty = false)
    (s : AsynchronousBlockInputStream) (h : Serves tail rem s) :
    (readImpl s).1 = .ok (rem.headD Block.empty) ∧ Serves tail rem.tail (readImpl s).2 := by
  rw [readImpl_eq_deliver]
  obtain ⟨hexc, hph⟩ := h
  rcases hph with ⟨h1, h2, h3⟩ | ⟨h1, h2, h3⟩ | ⟨h1, h2, h3⟩ | ⟨h1, h2, h3⟩
  · simp only [h1, Bool.not_false, if_true]
    obtain ⟨_, k1, k2, k3⟩ := serves_calculate tail htail rem s
      { calculate s with started := true } hexc h3 rfl rfl rfl rfl
      ((calculate_pool s).trans h2)
    exact serves_deliver tail rem hrem _ k1 k2 k3 rfl ((calculate_pool s).trans h2)
  · simp only [h1, Bool.not_true, Bool.false_eq_true, if_false, poolWait, h2, workerRuns, worker]
    obtain ⟨_, k1, k2, k3⟩ := serves_calculate tail htail rem s
      { calculate s with pool := 0 } hexc h3 rfl rfl rfl
      ((calculate_started s).trans h1) rfl
    exact serves_deliver tail rem hrem _ k1 k2 k3 ((calculate_started s).trans h1) rfl
  · simp only [h1, Bool.not_true, Bool.false_eq_true, if_false, poolWait, h2, workerRuns]
    obtain ⟨b, rem1, hr, hb, hi⟩ := h3
    subst hr
    refine serves_deliver tail (b :: rem1) hrem s hexc hb ?_ h1 h2
    intro b2 rem2 hb2
    injection hb2 with _ hb3
    rw [← hb3]
    exact hi
  · simp only [h1, Bool.not_true, Bool.false_eq_true, if_false, poolWait, h2, workerRuns]
    obtain ⟨hr, hb⟩ := h3
    subst hr
    refine serves_deliver tail [] hrem s hexc hb ?_ h1 h2
    intro b2 rem2 hb2
    exact List.noConfusion hb2

theorem take_append_replicate {α : Type} (x : α) (l : List α) :
    ∀ k m : Nat, k ≤ m →
      (l ++ List.replicate m x).take k = (l ++ List.replicate k x).take k := by
  induction l with
  | nil =>
    intro k m hkm
    simp [List.take_replicate, Nat.min_eq_left hkm]
  | cons a l ih =>
    intro k m hkm
    cases k with
    | zero => simp
    | succ k =>
      simp only [List.cons_append, List.take_succ_cons]
      rw [ih k m (by omega), ih k (k + 1) (by omega)]

/-- The results of the reads of any sequence of calls on a stream that serves
`rem`: the first blocks of `rem` followed by terminators. -/
theorem serves_reads (tail : IBlockInputStream)
    (htail : (IBlockInputStream.read tail).1 = .ok Block.empty)
    (calls : List Call) :
    ∀ (rem : List Block), (∀ b ∈ rem, b.isEmpty = false) →
      ∀ s : AsynchronousBlockInputStream, Serves tail rem s →
        reads s calls
          = ((rem ++ List.replicate (calls.countP Call.isRead) Block.empty).take
              (calls.countP Call.isRead)).map Except.ok := by
  induction calls with
  | nil => intro rem _ s _; simp [reads]
  | cons c calls ih =>
    intro rem hrem s h
    cases c with
    | poll milliseconds worker_finishes =>
      have h1 := serves_poll tail htail rem s h milliseconds worker_finishes
      simp only [reads, step, List.countP_cons, Call.isRead, Bool.false_eq_true, if_false,
        Nat.add_zero]
      exact ih rem hrem _ h1
    | worker =>
      have h1 := serves_worker tail htail rem s h
      simp only [reads, step, List.countP_cons, Call.isRead, Bool.false_eq_true, if_false,
        Nat.add_zero]
      exact ih rem hrem _ h1
    | read =>
      obtain ⟨h1, h2⟩ := serves_read tail htail rem hrem s h
      have hrem1 : ∀ b ∈ rem.tail, b.isEmpty = false :=
        fun b hb => hrem b (List.mem_of_mem_tail hb)
      simp only [reads, step, List.countP_cons, Call.isRead, if_true, h1]
      rw [ih rem.tail hrem1 _ h2]
      cases rem with
      | nil => simp [List.replicate_succ]
      | cons b rem1 =>
        simp only [List.headD_cons, List.tail_cons, List.cons_append, List.take_succ_cons,
          List.map_cons]
        rw [take_append_replicate Block.empty rem1 _ (List.countP Call.isRead calls + 1)
          (Nat.le_succ _)]

end AsynchronousBlockInputStream

/-- C2.  For every upstream that yields the non-empty blocks `bs` and then the
terminator (whatever it would do after that), and for every sequence of
`poll` calls, `read` calls and runs of the worker thread, the successive
`read` calls return the blocks of `bs` in order and then the terminator: the
results of `k` reads are the first `k` entries of `b1, ..., bn, T, T, ...`.  In
particular `n + 1` reads return exactly `b1, ..., bn, T`. -/
theorem AsynchronousBlockInputStream.reads_preserve_upstream_sequence
    (bs : List Block) (tail : IBlockInputStream)
    (calls : List AsynchronousBlockInputStream.Call)
    (hbs : ∀ b ∈ bs, b.isEmpty = false)
    (htail : (IBlockInputStream.read tail).1 = .ok Block.empty) :
    AsynchronousBlockInputStream.reads
        (AsynchronousBlockInputStream.create (bs.map Except.ok ++ tail)) calls
      = ((bs ++ List.replicate
            (calls.countP AsynchronousBlockInputStream.Call.isRead) Block.empty).take
          (calls.countP AsynchronousBlockInputStream.Call.isRead)).map Except.ok ∧
    (calls.countP AsynchronousBlockInputStream.Call.isRead = bs.length + 1 →
      AsynchronousBlockInputStream.reads
          (AsynchronousBlockInputStream.create (bs.map Except.ok ++ tail)) calls
        = bs.map Except.ok ++ [Except.ok Block.empty]) := by
  have hinit : AsynchronousBlockInputStream.Serves tail bs
      (AsynchronousBlockInputStream.create (bs.map Except.ok ++ tail)) :=
    ⟨rfl, Or.inl ⟨rfl, rfl, rfl⟩⟩
  have hmain := AsynchronousBlockInputStream.serves_reads tail htail calls bs hbs _ hinit
  refine ⟨hmain, ?_⟩
  intro hk
  rw [hmain, hk, List.take_append]
  simp [List.replicate_succ]

/-- Witness for C2: upstream yields two blocks and the terminator; the
consumer polls and reads while the worker runs at various moments. -/
theorem AsynchronousBlockInputStream.reads_preserve_upstream_sequence_witness :
    AsynchronousBlockInputStream.reads
        (AsynchronousBlockInputStream.create
          ([blockA123, blockA45].map Except.ok ++ [Except.ok Block.empty, Except.ok blockA45]))
        [.poll 10 false, .read, .worker, .poll 0 false, .read, .poll 5 true, .read]
      = [Except.ok blockA123, Except.ok blockA45, Except.ok Block.empty] :=
  (AsynchronousBlockInputStream.reads_preserve_upstream_sequence [blockA123, blockA45]
    [Except.ok Block.empty, Except.ok blockA45]
    [.poll 10 false, .read, .worker, .poll 0 false, .read, .poll 5 true, .read]
    (by decide) rfl).2 (by decide)

/-! ## AsynchronousBlockInputStream: errors of upstream -/

namespace AsynchronousBlockInputStream

theorem calculate_error (s : AsynchronousBlockInputStream) (e : Thrown)
    (rest : IBlockInputStream) (h : s.in_ = .error e :: rest) :
    calculate s = { s with in_ := rest, in_read_calls := s.in_read_calls + 1,
                           exception := some (caught e), ready := true } := by
  simp [calculate, IBlockInputStream.read, h]

theorem stored_worker (x : Thrown) (s : AsynchronousBlockInputStream) (h : Stored x s) :
    Stored x (worker s) := by
  obtain ⟨h1, h2, h3⟩ := h
  simp only [worker, h2]
  exact ⟨h1, h2, h3⟩

theorem computing_worker (e : Thrown) (s : AsynchronousBlockInputStream)
    (h : Computing e s) : Computing e (worker s) ∨ Stored (caught e) (worker s) := by
  obtain ⟨⟨rest, hin⟩, hph⟩ := h
  rcases hph with ⟨h1, h2⟩ | ⟨h1, h2⟩
  · left
    simp only [worker, h2]
    exact ⟨⟨rest, hin⟩, Or.inl ⟨h1, h2⟩⟩
  · right
    simp only [worker, h2, calculate_error s e rest hin]
    exact ⟨h1, rfl, rfl⟩

theorem stored_poll (x : Thrown) (s : AsynchronousBlockInputStream) (h : Stored x s)
    (milliseconds : Nat) (worker_finishes : Bool) :
    Stored x (poll milliseconds worker_finishes s).2 := by
  have h0 := h
  obtain ⟨h1, h2, h3⟩ := h
  unfold poll
  simp only [h1, Bool.not_true, Bool.false_eq_true, if_false]
  cases worker_finishes with
  | false => exact ⟨h1, h2, h3⟩
  | true => exact stored_worker x s h0

theorem computing_poll (e : Thrown) (s : AsynchronousBlockInputStream)
    (h : Computing e s) (milliseconds : Nat) (worker_finishes : Bool) :
    Computing e (poll milliseconds worker_finishes s).2 ∨
      Stored (caught e) (poll milliseconds worker_finishes s).2 := by
  have h1 : Computing e (if !s.started then { next s with started := true } else s) := by
    obtain ⟨⟨rest, hin⟩, hph⟩ := h
    rcases hph with ⟨h1, h2⟩ | ⟨h1, h2⟩
    · simp only [h1, Bool.not_false, if_true]
      refine ⟨⟨rest, hin⟩, Or.inr ⟨rfl, ?_⟩⟩
      simp [next, h2]
    · simp only [h1, Bool.not_true, Bool.false_eq_true, if_false]
      exact ⟨⟨rest, hin⟩, Or.inr ⟨h1, h2⟩⟩
  unfold poll
  cases worker_finishes with
  | false => exact Or.inl h1
  | true => exact computing_worker e _ h1

theorem stored_read (x : Thrown) (s : AsynchronousBlockInputStream) (h : Stored x s) :
    (readImpl s).1 = .error x ∧ Stored x (readImpl s).2 := by
  obtain ⟨h1, h2, h3⟩ := h
  rw [readImpl_eq_deliver]
  simp only [h1, Bool.not_true, Bool.false_eq_true, if_false, poolWait, h2, workerRuns,
    deliver, h3]
  exact ⟨trivial, h1, h2, h3⟩

theorem computing_read (e : Thrown) (s : AsynchronousBlockInputStream)
    (h : Computing e s) :
    (readImpl s).1 = .error (caught e) ∧ Stored (caught e) (readImpl s).2 := by
  obtain ⟨⟨rest, hin⟩, hph⟩ := h
  rw [readImpl_eq_deliver]
  rcases hph with ⟨h1, h2⟩ | ⟨h1, h2⟩
  · simp only [h1, Bool.not_false, if_true, calculate_error s e rest hin, deliver]
    exact ⟨trivial, rfl, h2, rfl⟩
  · simp only [h1, Bool.not_true, Bool.false_eq_true, if_false, poolWait, h2, workerRuns,
      worker, calculate_error s e rest hin, deliver]
    exact ⟨trivial, rfl, rfl, rfl⟩

/-- After any calls that are not reads, a stream with the exception stored
raises it on the next read. -/
theorem stored_reads (x : Thrown) (calls : List Call) :
    ∀ s : AsynchronousBlockInputStream, Stored x s →
      (∀ c ∈ calls, c.isRead = false) →
      reads s (calls ++ [.read]) = [.error x] ∧
        Stored x (after s (calls ++ [.read])) := by
  induction calls with
  | nil =>
    intro s h _
    obtain ⟨h1, h2⟩ := stored_read x s h
    simp only [List.nil_append, reads, step, h1, after]
    exact ⟨trivial, h2⟩
  | cons c calls ih =>
    intro s h hc
    have hrest : ∀ c ∈ calls, c.isRead = false :=
      fun d hd => hc d (List.mem_cons_of_mem _ hd)
    have hhead := hc c (List.mem_cons_self _ _)
    cases c with
    | read => simp [Call.isRead] at hhead
    | poll milliseconds worker_finishes =>
      simp only [List.cons_append, reads, step, after]
      exact ih _ (stored_poll x s h milliseconds worker_finishes) hrest
    | worker =>
      simp only [List.cons_append, reads, step, after]
      exact ih _ (stored_worker x s h) hrest

/-- After any calls that are not reads, a stream whose pending computation
will meet the upstream error `e` raises the stored form of `e` on the next
read. -/
theorem computing_reads (e : Thrown) (calls : List Call) :
    ∀ s : AsynchronousBlockInputStream, Computing e s →
      (∀ c ∈ calls, c.isRead = false) →
      reads s (calls ++ [.read]) = [.error (caught e)] ∧
        Stored (caught e) (after s (calls ++ [.read])) := by
  induction calls with
  | nil =>
    intro s h _
    obtain ⟨h1, h2⟩ := computing_read e s h
    simp only [List.nil_append, reads, step, h1, after]
    exact ⟨trivial, h2⟩
  | cons c calls ih =>
    intro s h hc
    have hrest : ∀ c ∈ calls, c.isRead = false :=
      fun d hd => hc d (List.mem_cons_of_mem _ hd)
    have hhead := hc c (List.mem_cons_self _ _)
    cases c with
    | read => simp [Call.isRead] at hhead
    | poll milliseconds worker_finishes =>
      simp only [List.cons_append, reads, step, after]
      rcases computing_poll e s h milliseconds worker_finishes with h1 | h1
      · exact ih _ h1 hrest
      · exact stored_reads (caught e) calls _ h1 hrest
    | worker =>
      simp only [List.cons_append, reads, step, after]
      rcases computing_worker e s h with h1 | h1
      · exact ih _ h1 hrest
      · exact stored_reads (caught e) calls _ h1 hrest

end AsynchronousBlockInputStream

/-- C9.  Whenever the next `in->read()` of upstream raises `e` while a block
is being computed (the stream is not started, so the first read computes
synchronously; or it is started and one task is outstanding in the pool), the
error does not escape `calculate`: `calculate` ends normally with the
exception stored, the buffered block untouched and the event set.  Whatever
`poll` calls and worker runs come first, the next `read` raises the stored
error and returns no block.  The stored error is `e` itself when `e` is a
`DB::Exception` or a `Poco::Exception`. -/
theorem AsynchronousBlockInputStream.upstream_error_stored_and_rethrown
    (s : AsynchronousBlockInputStream) (e : Thrown) (rest : IBlockInputStream)
    (calls : List AsynchronousBlockInputStream.Call)
    (hin : s.in_ = Except.error e :: rest)
    (hphase : (s.started = false ∧ s.pool = 0) ∨ (s.started = true ∧ s.pool = 1))
    (hcalls : ∀ c ∈ calls, c.isRead = false) :
    (AsynchronousBlockInputStream.calculate s).exception
        = some (AsynchronousBlockInputStream.caught e) ∧
    (AsynchronousBlockInputStream.calculate s).ready = true ∧
    (AsynchronousBlockInputStream.calculate s).block = s.block ∧
    AsynchronousBlockInputStream.reads s (calls ++ [.read])
        = [Except.error (AsynchronousBlockInputStream.caught e)] ∧
    (AsynchronousBlockInputStream.after s (calls ++ [.read])).exception
        = some (AsynchronousBlockInputStream.caught e) ∧
    (∀ x, e = Thrown.dbException x → AsynchronousBlockInputStream.caught e = e) ∧
    (∀ m c, e = Thrown.pocoException m c → AsynchronousBlockInputStream.caught e = e) := by
  have hcomp : AsynchronousBlockInputStream.Computing e s := ⟨⟨rest, hin⟩, hphase⟩
  obtain ⟨h1, h2⟩ := AsynchronousBlockInputStream.computing_reads e calls s hcomp hcalls
  rw [AsynchronousBlockInputStream.calculate_error s e rest hin]
  refine ⟨rfl, rfl, rfl, h1, h2.2.2, ?_, ?_⟩
  · intro x hx; subst hx; rfl
  · intro m c hm; subst hm; rfl

/-- Witness for C9: upstream raises a `std::exception` on its first read, the
computation is dispatched by `poll` and run by the worker, and the read that
follows raises the stored exception. -/
theorem AsynchronousBlockInputStream.upstream_error_stored_and_rethrown_witness :
    AsynchronousBlockInputStream.reads
        (AsynchronousBlockInputStream.create [Except.error (Thrown.stdException "boom")])
        ([.poll 0 false, .worker] ++ [.read])
      = [Except.error (Thrown.dbException ⟨"boom", ErrorCode.STD_EXCEPTION⟩)] :=
  (AsynchronousBlockInputStream.upstream_error_stored_and_rethrown
    (AsynchronousBlockInputStream.create [Except.error (Thrown.stdException "boom")])
    (Thrown.stdException "boom") [] [.poll 0 false, .worker] rfl (Or.inl ⟨rfl, rfl⟩)
    (by decide)).2.2.2.1

/-! ## TCPHandler: the handshake -/

/-- C5 (amended).  For every first packet whose type is not Hello,
`receiveHello` throws `UNEXPECTED_PACKET_FROM_CLIENT` out of `runImpl`, which
has no `try` around it; `run` catches it and only logs.  The server writes
nothing at all, neither an Exception packet nor its Hello, reads nothing
after the packet type, and the connection is closed. -/
theorem TCPHandler.wrong_first_packet_closes_silently
    (ext : Externals) (h : TCPHandler) (t : Nat) (rest : List Token)
    (hin : h.in_ = Token.varUInt t :: rest) (ht : t ≠ Protocol.Client.Hello.code) :
    (TCPHandler.runImpl ext h).1
        = Except.error (TCPHandler.unexpectedPacket "Unexpected packet from client") ∧
    (TCPHandler.runImpl ext h).2.out = h.out ∧
    (TCPHandler.run ext h).out = h.out ∧
    (TCPHandler.run ext h).in_ = rest := by
  simp [TCPHandler.run, TCPHandler.runImpl, TCPHandler.receiveHello, readVarUInt, hin, ht]

/-- Witness for C5: the first packet has type 2 (Data). -/
theorem TCPHandler.wrong_first_packet_closes_silently_witness :
    (TCPHandler.run sampleServer (TCPHandler.accept sampleServer [Token.varUInt 2])).out = [] :=
  (TCPHandler.wrong_first_packet_closes_silently sampleServer
    (TCPHandler.accept sampleServer [Token.varUInt 2]) 2 [] rfl (by decide)).2.2.1

/-- C5 as stated fails: when the client sends packet type 2 first, the output
of the server is empty; it is not one Exception packet. -/
theorem TCPHandler.wrong_first_packet_counterexample :
    (TCPHandler.runImpl sampleServer (TCPHandler.accept sampleServer [Token.varUInt 2])).1
        = Except.error (TCPHandler.unexpectedPacket "Unexpected packet from client") ∧
    (TCPHandler.run sampleServer (TCPHandler.accept sampleServer [Token.varUInt 2])).out = [] ∧
    ¬ ∃ e, (TCPHandler.run sampleServer (TCPHandler.accept sampleServer [Token.varUInt 2])).out
        = [ServerPacket.Exception e] := by
  refine ⟨rfl, rfl, ?_⟩
  rintro ⟨e, he⟩
  have h0 : (TCPHandler.run sampleServer
      (TCPHandler.accept sampleServer [Token.varUInt 2])).out = [] := rfl
  rw [h0] at he
  exact List.noConfusion he

/-! ## TCPHandler: errors in the main loop -/

/-- C4 (amended).  When the `try` block of the main loop (receiving the packet
and running the query) raises `t`:
if `t` is a `DB::Exception` with the code `UNKNOWN_PACKET_FROM_CLIENT`, the
exception is rethrown before anything is sent, so no Exception packet is
written, the exception leaves `runImpl` and the connection is terminated;
for every other `t` the server writes exactly one Exception packet, carrying
the exception stored for `t`, resets the state, and the main loop goes on to
the next query. -/
theorem TCPHandler.error_in_query_is_sent_unless_unknown_packet
    (ext : Externals) (h h1 : TCPHandler) (t : Thrown)
    (htry : TCPHandler.tryQuery ext (TCPHandler.resetState ext h) = (Except.error t, h1)) :
    (TCPHandler.isUnknownPacket t = true →
      (TCPHandler.queryIteration ext h).1 = Except.error t ∧
      (TCPHandler.queryIteration ext h).2.out = h1.out ∧
      (∀ fuel, h.daemon_is_cancelled = false → h.in_.isEmpty = false →
        (TCPHandler.mainLoop ext (fuel + 1) h).1 = Except.error t ∧
        (TCPHandler.mainLoop ext (fuel + 1) h).2.out = h1.out)) ∧
    (TCPHandler.isUnknownPacket t = false →
      (TCPHandler.queryIteration ext h).1 = Except.ok () ∧
      (TCPHandler.queryIteration ext h).2.out
        = h1.out ++ [ServerPacket.Exception (TCPHandler.storedException t)] ∧
      (TCPHandler.queryIteration ext h).2.state = QueryState.init ext ∧
      (∀ fuel, h.daemon_is_cancelled = false → h.in_.isEmpty = false →
        TCPHandler.mainLoop ext (fuel + 1) h
          = TCPHandler.mainLoop ext fuel (TCPHandler.queryIteration ext h).2)) := by
  constructor
  · intro hu
    cases t with
    | dbException e =>
      have hc : e.code = ErrorCode.UNKNOWN_PACKET_FROM_CLIENT := by
        simpa [TCPHandler.isUnknownPacket] using hu
      have hq : TCPHandler.queryIteration ext h
          = (Except.error (Thrown.dbException e),
              { h1 with state := { h1.state with exception := some e } }) := by
        simp [TCPHandler.queryIteration, htry, TCPHandler.catchQuery, hc]
      refine ⟨by rw [hq], by rw [hq], ?_⟩
      intro fuel hd hi
      simp [TCPHandler.mainLoop, hd, hi, hq]
    | pocoException m c => simp [TCPHandler.isUnknownPacket] at hu
    | stdException w => simp [TCPHandler.isUnknownPacket] at hu
    | unknown => simp [TCPHandler.isUnknownPacket] at hu
  · intro hu
    have hq : TCPHandler.queryIteration ext h
        = (Except.ok (), TCPHandler.resetState ext
            (TCPHandler.sendException (TCPHandler.storedException t)
              { h1 with state := { h1.state with
                  exception := some (TCPHandler.storedException t) } })) := by
      cases t with
      | dbException e =>
        have hc : ¬ e.code = ErrorCode.UNKNOWN_PACKET_FROM_CLIENT := by
          simpa [TCPHandler.isUnknownPacket] using hu
        simp [TCPHandler.queryIteration, htry, TCPHandler.catchQuery, hc,
          TCPHandler.storedException]
      | pocoException m c =>
        simp [TCPHandler.queryIteration, htry, TCPHandler.catchQuery,
          TCPHandler.storedException]
      | stdException w =>
        simp [TCPHandler.queryIteration, htry, TCPHandler.catchQuery,
          TCPHandler.storedException]
      | unknown =>
        simp [TCPHandler.queryIteration, htry, TCPHandler.catchQuery,
          TCPHandler.storedException]
    refine ⟨by rw [hq], by rw [hq]; rfl, by rw [hq]; rfl, ?_⟩
    intro fuel hd hi
    simp [TCPHandler.mainLoop, hd, hi, hq]

/-- Witness for C4: a Data packet arrives while no query is in flight; the
server answers with one Exception packet and the loop goes on. -/
theorem TCPHandler.error_in_query_is_sent_unless_unknown_packet_witness :
    (TCPHandler.queryIteration sampleServer
        (TCPHandler.accept sampleServer [Token.varUInt 2])).1 = Except.ok () ∧
    (TCPHandler.queryIteration sampleServer
        (TCPHandler.accept sampleServer [Token.varUInt 2])).2.out
      = [] ++ [ServerPacket.Exception
          ⟨"Unexpected packet Data received from client",
            ErrorCode.UNEXPECTED_PACKET_FROM_CLIENT⟩] :=
  have h := (TCPHandler.error_in_query_is_sent_unless_unknown_packet sampleServer
    (TCPHandler.accept sampleServer [Token.varUInt 2])
    (TCPHandler.tryQuery sampleServer
      (TCPHandler.resetState sampleServer (TCPHandler.accept sampleServer [Token.varUInt 2]))).2
    (TCPHandler.unexpectedPacket "Unexpected packet Data received from client") rfl).2 rfl
  ⟨h.1, h.2.1⟩

/-- C4 as stated fails for `UnknownPacket`: a packet of the unknown type 99
makes `receivePacket` throw `UNKNOWN_PACKET_FROM_CLIENT`; the iteration
writes no packet, and over the whole connection the server writes only its
Hello: no Exception packet, and the query that follows is not served. -/
theorem TCPHandler.unknown_packet_not_sent_counterexample :
    (TCPHandler.tryQuery sampleServer
        (TCPHandler.resetState sampleServer
          (TCPHandler.accept sampleServer [Token.varUInt 99]))).1
      = Except.error TCPHandler.unknownPacket ∧
    (TCPHandler.queryIteration sampleServer
        (TCPHandler.accept sampleServer [Token.varUInt 99])).1
      = Except.error TCPHandler.unknownPacket ∧
    (TCPHandler.queryIteration sampleServer
        (TCPHandler.accept sampleServer [Token.varUInt 99])).2.out = [] ∧
    (TCPHandler.run sampleServer
        (TCPHandler.accept sampleServer
          (clientHello "" ++ [Token.varUInt 99] ++ clientQuery 1 "SELECT plain"))).out
      = [ServerPacket.Hello "ClickHouse" 0 0 1] :=
  ⟨rfl, rfl, rfl, rfl⟩

/-! ## TCPHandler: the cancellation check -/

/-- C10 (amended).  `isQueryCancelled`, called when the clock reads `now`:
if `is_cancelled` or `sent_all_data` is set it returns true and leaves the
handler as it is; otherwise, if less than `interactive_delay` has elapsed
since the last check, it returns false and leaves the handler as it is;
otherwise it restarts the stopwatch and polls the socket: with no byte
available it returns false and reads nothing; with a packet type available
it reads exactly that one value, and then a Cancel packet sets `is_cancelled`
and returns true PROVIDED the query state is not empty, a Cancel packet with
an empty query state raises `UNEXPECTED_PACKET_FROM_CLIENT`, and every other
packet type raises `UNKNOWN_PACKET_FROM_CLIENT`. -/
theorem TCPHandler.isQueryCancelled_cases (ext : Externals) (now : Nat) (h : TCPHandler) :
    ((h.state.is_cancelled || h.state.sent_all_data) = true →
      TCPHandler.isQueryCancelled ext now h = (Except.ok true, h)) ∧
    ((h.state.is_cancelled || h.state.sent_all_data) = false →
      (now - h.after_check_cancelled) / 1000 < h.state.context.settings.interactive_delay →
      TCPHandler.isQueryCancelled ext now h = (Except.ok false, h)) ∧
    ((h.state.is_cancelled || h.state.sent_all_data) = false →
      ¬ (now - h.after_check_cancelled) / 1000 < h.state.context.settings.interactive_delay →
      (h.in_ = [] →
        TCPHandler.isQueryCancelled ext now h
          = (Except.ok false, { h with after_check_cancelled := now })) ∧
      (∀ t rest, h.in_ = Token.varUInt t :: rest →
        (t = Protocol.Client.Cancel.code → ext.empty h.state = false →
          TCPHandler.isQueryCancelled ext now h
            = (Except.ok true,
                { h with after_check_cancelled := now, in_ := rest,
                         state := { h.state with is_cancelled := true } })) ∧
        (t = Protocol.Client.Cancel.code → ext.empty h.state = true →
          TCPHandler.isQueryCancelled ext now h
            = (Except.error
                (TCPHandler.unexpectedPacket "Unexpected packet Cancel received from client"),
                { h with after_check_cancelled := now, in_ := rest })) ∧
        (t ≠ Protocol.Client.Cancel.code →
          TCPHandler.isQueryCancelled ext now h
            = (Except.error TCPHandler.unknownPacket,
                { h with after_check_cancelled := now, in_ := rest })))) := by
  refine ⟨?_, ?_, ?_⟩
  · intro hc
    simp only [TCPHandler.isQueryCancelled, hc, if_true]
  · intro hc hd
    simp only [TCPHandler.isQueryCancelled, hc, Bool.false_eq_true, if_false, hd, if_true]
  · intro hc hd
    refine ⟨?_, ?_⟩
    · intro hin
      simp [TCPHandler.isQueryCancelled, hc, hd, TCPHandler.inPoll, hin]
    · intro t rest hin
      refine ⟨?_, ?_, ?_⟩
      · intro ht he
        simp [TCPHandler.isQueryCancelled, hc, hd, TCPHandler.inPoll, hin, readVarUInt, ht, he]
      · intro ht he
        simp [TCPHandler.isQueryCancelled, hc, hd, TCPHandler.inPoll, hin, readVarUInt, ht, he]
      · intro ht
        simp [TCPHandler.isQueryCancelled, hc, hd, TCPHandler.inPoll, hin, readVarUInt, ht]

/-- Witness for C10: during a SELECT, more than the interactive delay after
the query started, the socket holds a Cancel packet and then a Ping; the
check reads the packet type of the Cancel only, sets `is_cancelled` and
returns true. -/
theorem TCPHandler.isQueryCancelled_cases_witness :
    (TCPHandler.isQueryCancelled sampleServer 1000000000
        (duringSelect [Token.varUInt 3, Token.varUInt 4])).1 = Except.ok true ∧
    (TCPHandler.isQueryCancelled sampleServer 1000000000
        (duringSelect [Token.varUInt 3, Token.varUInt 4])).2.in_ = [Token.varUInt 4] ∧
    (TCPHandler.isQueryCancelled sampleServer 1000000000
        (duringSelect [Token.varUInt 3, Token.varUInt 4])).2.state.is_cancelled = true :=
  have h := (((TCPHandler.isQueryCancelled_cases sampleServer 1000000000
    (duringSelect [Token.varUInt 3, Token.varUInt 4])).2.2 rfl (by decide)).2
      3 [Token.varUInt 4] rfl).1 rfl rfl
  ⟨by rw [h], by rw [h], by rw [h]⟩

/-- C10 as stated fails for a Cancel packet that arrives while the query state
is empty: the check does not set `is_cancelled` and does not return true, it
raises `UNEXPECTED_PACKET_FROM_CLIENT`. -/
theorem TCPHandler.isQueryCancelled_cancel_on_empty_state_counterexample :
    sampleServer.empty (TCPHandler.accept sampleServer [Token.varUInt 3]).state = true ∧
    (TCPHandler.isQueryCancelled sampleServer 1000000000
        (TCPHandler.accept sampleServer [Token.varUInt 3])).1
      = Except.error
          (TCPHandler.unexpectedPacket "Unexpected packet Cancel received from client") ∧
    (TCPHandler.isQueryCancelled sampleServer 1000000000
        (TCPHandler.accept sampleServer [Token.varUInt 3])).2.state.is_cancelled = false :=
  ⟨rfl, rfl, rfl⟩

/-! ## TCPHandler: how the output grows while a query is received and run -/

theorem progressRows_append (a b : List ServerPacket) :
    progressRows (a ++ b) = progressRows a + progressRows b := by
  induction a with
  | nil => simp [progressRows]
  | cons p a ih =>
    cases p <;> simp [progressRows, ih, Nat.add_assoc]

theorem progressBytes_append (a b : List ServerPacket) :
    progressBytes (a ++ b) = progressBytes a + progressBytes b := by
  induction a with
  | nil => simp [progressBytes]
  | cons p a ih =>
    cases p <;> simp [progressBytes, ih, Nat.add_assoc]

theorem Advances.refl (h : TCPHandler) : Advances h h := by
  refine ⟨[], by simp, by simp, ?_, ?_, ?_, ?_⟩ <;> simp [progressRows, progressBytes]

theorem Advances.trans {h1 h2 h3 : TCPHandler} (h12 : Advances h1 h2) (h23 : Advances h2 h3) :
    Advances h1 h3 := by
  obtain ⟨n1, o1, b1, r1, l1, y1, m1⟩ := h12
  obtain ⟨n2, o2, b2, r2, l2, y2, m2⟩ := h23
  refine ⟨n1 ++ n2, ?_, ?_, ?_, ?_, ?_, ?_⟩
  · rw [o2, o1, List.append_assoc]
  · intro p hp
    rcases List.mem_append.mp hp with hp | hp
    · exact b1 p hp
    · exact b2 p hp
  · rw [progressRows_append]; omega
  · rw [progressRows_append]; omega
  · rw [progressBytes_append]; omega
  · rw [progressBytes_append]; omega

/-- A step that writes nothing and touches neither the accumulators nor the
history variables. -/
theorem Advances.of_silent {h1 h2 : TCPHandler} (ho : h2.out = h1.out)
    (hr : h2.state.rows_processed = h1.state.rows_processed)
    (hb : h2.state.bytes_processed = h1.state.bytes_processed)
    (hrr : h2.reported_rows = h1.reported_rows)
    (hrb : h2.reported_bytes = h1.reported_bytes) : Advances h1 h2 := by
  refine ⟨[], by simp [ho], by simp, ?_, ?_, ?_, ?_⟩ <;>
    simp [progressRows, progressBytes, hr, hb, hrr, hrb]

/-- A step that writes one `Data` or `Pong` packet and touches neither the
accumulators nor the history variables. -/
theorem Advances.of_packet {h1 h2 : TCPHandler} (p : ServerPacket)
    (ho : h2.out = h1.out ++ [p]) (hp : p.isBody = true) (hnp : p.isProgress = false)
    (hr : h2.state.rows_processed = h1.state.rows_processed)
    (hb : h2.state.bytes_processed = h1.state.bytes_processed)
    (hrr : h2.reported_rows = h1.reported_rows)
    (hrb : h2.reported_bytes = h1.reported_bytes) : Advances h1 h2 := by
  have h0r : progressRows [p] = 0 := by
    cases p <;> simp_all [progressRows, ServerPacket.isProgress]
  have h0b : progressBytes [p] = 0 := by
    cases p <;> simp_all [progressBytes, ServerPacket.isProgress]
  refine ⟨[p], ho, by simpa using hp, ?_, ?_, ?_, ?_⟩ <;>
    simp [h0r, h0b, hr, hb, hrr, hrb]

namespace TCPHandler

theorem sendData_advances (block : Block) (h : TCPHandler) : Advances h (sendData block h) := by
  refine Advances.of_packet (.Data block) ?_ rfl rfl ?_ ?_ ?_ ?_ <;>
    (unfold sendData; split <;> rfl)

theorem sendProgress_advances (rows bytes now : Nat) (h : TCPHandler) :
    Advances h (sendProgress rows bytes now h) := by
  unfold sendProgress
  simp only
  split
  · refine ⟨[], by simp, by simp, ?_, ?_, ?_, ?_⟩ <;> simp [progressRows, progressBytes] <;> omega
  · split
    · refine ⟨[], by simp, by simp, ?_, ?_, ?_, ?_⟩ <;>
        simp [progressRows, progressBytes] <;> omega
    · refine ⟨[.Progress ((h.state.rows_processed + rows) % 2 ^ 64)
          ((h.state.bytes_processed + bytes) % 2 ^ 64)], rfl, by simp [ServerPacket.isBody],
          ?_, ?_, ?_, ?_⟩ <;>
        simp [progressRows, progressBytes] <;> omega

end TCPHandler

namespace TCPHandler

theorem isQueryCancelled_advances (ext : Externals) (now : Nat) (h : TCPHandler) :
    Advances h (isQueryCancelled ext now h).2 := by
  unfold isQueryCancelled
  simp only
  repeat' split
  all_goals exact Advances.of_silent rfl rfl rfl rfl rfl

theorem runCallback_advances (ext : Externals) (c : Callback) (h : TCPHandler) :
    Advances h (runCallback ext c h).2 := by
  cases c with
  | isQueryCancelled now =>
    have h1 := isQueryCancelled_advances ext now h
    simp only [runCallback]
    split
    · rename_i e h2 heq
      rw [heq] at h1
      exact h1
    · rename_i a h2 heq
      rw [heq] at h1
      exact h1
  | sendProgress rows bytes now => exact sendProgress_advances rows bytes now h

theorem runCallbacks_advances (ext : Externals) (cs : List Callback) :
    ∀ h : TCPHandler, Advances h (runCallbacks ext cs h).2 := by
  induction cs with
  | nil => intro h; exact Advances.refl h
  | cons c cs ih =>
    intro h
    have h1 := runCallback_advances ext c h
    unfold runCallbacks
    split
    · rename_i e h2 heq
      rw [heq] at h1
      exact h1
    · rename_i h2 heq
      rw [heq] at h1
      exact Advances.trans h1 (ih h2)

theorem pullBlocks_advances (ext : Externals) (installed : Bool) (steps : List ReadStep) :
    ∀ h : TCPHandler, Advances h (pullBlocks ext installed steps h).2 := by
  induction steps with
  | nil => intro h; exact sendData_advances Block.empty h
  | cons step rest ih =>
    intro h
    have h1 : Advances h
        (if installed then runCallbacks ext step.callbacks h else (Except.ok (), h)).2 := by
      cases installed
      · exact Advances.refl h
      · exact runCallbacks_advances ext step.callbacks h
    unfold pullBlocks
    split
    · rename_i e h2 heq
      rw [heq] at h1
      exact h1
    · rename_i h2 heq
      rw [heq] at h1
      split
      · exact h1
      · split
        · exact Advances.trans h1 (sendData_advances _ h2)
        · exact Advances.trans h1 (Advances.trans (sendData_advances _ h2) (ih _))

theorem processOrdinaryQuery_advances (ext : Externals) (h : TCPHandler) :
    Advances h (processOrdinaryQuery ext h).2 := by
  unfold processOrdinaryQuery
  split
  · exact Advances.refl h
  · exact pullBlocks_advances ext _ _ h

theorem outputCall_advances (c : OutputCall) (h : TCPHandler) :
    Advances h (outputCall c h).2 := by
  unfold outputCall
  split <;> exact Advances.of_silent rfl rfl rfl rfl rfl

theorem receiveData_advances (h : TCPHandler) : Advances h (receiveData h).2 := by
  have h1 : Advances h (if h.state.block_in.isNone then
      { h with state := { h.state with
          maybe_compressed_in := some (h.state.compression == Protocol.Compression.Enable),
          block_in := some h.state.io.out_sample } }
    else h) := by
    split <;> exact Advances.of_silent rfl rfl rfl rfl rfl
  unfold receiveData
  simp only
  split
  · exact Advances.trans h1 (Advances.of_silent rfl rfl rfl rfl rfl)
  · split
    · have h2 := outputCall_advances (.write ‹Block›)
        { (if h.state.block_in.isNone then
            { h with state := { h.state with
                maybe_compressed_in := some (h.state.compression == Protocol.Compression.Enable),
                block_in := some h.state.io.out_sample } }
          else h) with in_ := ‹List Token› }
      split
      · rename_i heq
        rw [heq] at h2
        exact Advances.trans h1 (Advances.trans (Advances.of_silent rfl rfl rfl rfl rfl) h2)
      · rename_i heq
        rw [heq] at h2
        exact Advances.trans h1 (Advances.trans (Advances.of_silent rfl rfl rfl rfl rfl) h2)
    · exact Advances.trans h1 (Advances.of_silent rfl rfl rfl rfl rfl)

theorem receiveQuery_advances (ext : Externals) (h : TCPHandler) :
    Advances h (receiveQuery ext h).2 := by
  unfold receiveQuery
  simp only
  repeat' split
  all_goals exact Advances.of_silent rfl rfl rfl rfl rfl

end TCPHandler

namespace TCPHandler

theorem receivePacketFrom_advances (ext : Externals) (input : List Token) :
    ∀ h : TCPHandler, Advances h (receivePacketFrom ext input h).2 := by
  induction input with
  | nil => intro h; exact Advances.refl h
  | cons tok rest ih =>
    intro h
    have hs : Advances h { h with in_ := rest } := Advances.of_silent rfl rfl rfl rfl rfl
    cases tok with
    | varUInt packet_type =>
      simp only [receivePacketFrom]
      split
      · split
        · exact hs
        · have h1 := receiveQuery_advances ext { h with in_ := rest }
          split
          · rename_i heq
            rw [heq] at h1
            exact Advances.trans hs h1
          · rename_i heq
            rw [heq] at h1
            exact Advances.trans hs h1
      · split
        · split
          · exact hs
          · exact Advances.trans hs (receiveData_advances _)
        · split
          · have hp : Advances h { h with in_ := rest, out := h.out ++ [ServerPacket.Pong] } :=
              Advances.of_packet .Pong rfl rfl rfl rfl rfl rfl rfl
            exact Advances.trans hp (ih _)
          · exact hs
    | stringBinary s => exact hs
    | intBinary x => exact hs
    | block b => exact hs

theorem receivePacket_advances (ext : Externals) (h : TCPHandler) :
    Advances h (receivePacket ext h).2 :=
  receivePacketFrom_advances ext h.in_ h

theorem receivePackets_advances (ext : Externals) (fuel : Nat) :
    ∀ h : TCPHandler, Advances h (receivePackets ext fuel h).2 := by
  induction fuel with
  | zero =>
    intro h
    have h1 := receivePacket_advances ext h
    unfold receivePackets
    split
    · rename_i heq; rw [heq] at h1; exact h1
    · rename_i heq; rw [heq] at h1; exact h1
  | succ fuel ih =>
    intro h
    have h1 := receivePacket_advances ext h
    unfold receivePackets
    split
    · rename_i heq; rw [heq] at h1; exact h1
    · rename_i heq; rw [heq] at h1; exact Advances.trans h1 (ih _)
    · rename_i heq; rw [heq] at h1; exact h1

theorem processInsertQuery_advances (ext : Externals) (h : TCPHandler) :
    Advances h (processInsertQuery ext h).2 := by
  have h1 := sendData_advances h.state.io.out_sample h
  have h2 := outputCall_advances .writePrefix (sendData h.state.io.out_sample h)
  unfold processInsertQuery
  simp only
  split
  · rename_i heq
    rw [heq] at h2
    exact Advances.trans h1 h2
  · rename_i h3 heq
    rw [heq] at h2
    have h4 := receivePackets_advances ext h3.in_.length h3
    split
    · rename_i heq2
      rw [heq2] at h4
      exact Advances.trans h1 (Advances.trans h2 h4)
    · rename_i h5 heq2
      rw [heq2] at h4
      exact Advances.trans h1 (Advances.trans h2 (Advances.trans h4 (outputCall_advances _ h5)))

/-- The `try` block either throws, having written only `Data`, `Progress` and
`Pong` packets, or ends with `sendEndOfStream` after having written only
such packets. -/
theorem tryQuery_advances (ext : Externals) (h : TCPHandler) :
    (∃ t h1, tryQuery ext h = (Except.error t, h1) ∧ Advances h h1) ∨
    (∃ h1, tryQuery ext h = (Except.ok (), sendEndOfStream h1) ∧ Advances h h1) := by
  have h1 := receivePacket_advances ext h
  unfold tryQuery
  split
  · rename_i e h2 heq
    rw [heq] at h1
    exact Or.inl ⟨e, h2, rfl, h1⟩
  · rename_i b h2 heq
    rw [heq] at h1
    have hs : Advances h2
        { h2 with after_check_cancelled := h2.clock, after_send_progress := h2.clock } :=
      Advances.of_silent rfl rfl rfl rfl rfl
    have h3 : Advances { h2 with after_check_cancelled := h2.clock,
                                 after_send_progress := h2.clock }
        (if (h2.state.io.out).isSome then
            processInsertQuery ext { h2 with after_check_cancelled := h2.clock,
                                             after_send_progress := h2.clock }
         else
            processOrdinaryQuery ext { h2 with after_check_cancelled := h2.clock,
                                               after_send_progress := h2.clock }).2 := by
      split
      · exact processInsertQuery_advances ext _
      · exact processOrdinaryQuery_advances ext _
    simp only
    split
    · rename_i e h4 heq2
      rw [heq2] at h3
      exact Or.inl ⟨e, h4, rfl, Advances.trans h1 (Advances.trans hs h3)⟩
    · rename_i h4 heq2
      rw [heq2] at h3
      exact Or.inr ⟨h4, rfl, Advances.trans h1 (Advances.trans hs h3)⟩

end TCPHandler

/-! ## TCPHandler: nothing after EndOfStream -/

theorem noDataAfterEndOfStream_body_append (body rest : List ServerPacket)
    (hb : ∀ p ∈ body, p.isBody = true) :
    noDataAfterEndOfStream (body ++ rest) = noDataAfterEndOfStream rest := by
  induction body with
  | nil => rfl
  | cons p body ih =>
    have hp := hb p (List.mem_cons_self _ _)
    have ih1 := ih (fun q hq => hb q (List.mem_cons_of_mem _ hq))
    cases p <;> simp_all [noDataAfterEndOfStream, ServerPacket.isBody]

theorem catchQuery_out (t : Thrown) (h : TCPHandler) :
    (TCPHandler.catchQuery t h).2.out = h.out := by
  cases t with
  | dbException e =>
    simp only [TCPHandler.catchQuery]
    split <;> rfl
  | pocoException m c => rfl
  | stdException w => rfl
  | unknown => rfl

/-- C6.  Within one query, that is one pass of the main loop from the state
reset before `receivePacket` to the state reset after the `try`, the packets
the server writes contain no `Data` and no `Progress` packet after an
`EndOfStream` packet.  `sendEndOfStream` sets `sent_all_data`, and once
`sent_all_data` is set every `sendProgress` callback writes nothing and
leaves the flag set. -/
theorem TCPHandler.no_data_or_progress_after_end_of_stream
    (ext : Externals) (h : TCPHandler) :
    (∃ new : List ServerPacket,
      (TCPHandler.queryIteration ext h).2.out = h.out ++ new ∧
      noDataAfterEndOfStream new = true) ∧
    (∀ h1 : TCPHandler, (TCPHandler.sendEndOfStream h1).state.sent_all_data = true) ∧
    (∀ (h1 : TCPHandler) (rows bytes now : Nat), h1.state.sent_all_data = true →
      (TCPHandler.sendProgress rows bytes now h1).out = h1.out ∧
      (TCPHandler.sendProgress rows bytes now h1).state.sent_all_data = true) := by
  refine ⟨?_, fun _ => rfl, ?_⟩
  · have hcases := TCPHandler.tryQuery_advances ext (TCPHandler.resetState ext h)
    have hout0 : (TCPHandler.resetState ext h).out = h.out := rfl
    rcases hcases with ⟨t, h1, htry, new, ho, hb, _⟩ | ⟨h1, htry, new, ho, hb, _⟩
    · rw [hout0] at ho
      have hc := catchQuery_out t h1
      unfold TCPHandler.queryIteration
      simp only [htry]
      rcases hcq : TCPHandler.catchQuery t h1 with ⟨r, h2⟩
      rw [hcq] at hc
      simp only at hc
      cases r with
      | error t2 =>
        refine ⟨new, ?_, ?_⟩
        · simp only [hc, ho]
        · have := noDataAfterEndOfStream_body_append new [] hb
          simpa [noDataAfterEndOfStream] using this
      | ok u =>
        cases hex : h2.state.exception with
        | none =>
          refine ⟨new, ?_, ?_⟩
          · simp only [hex, TCPHandler.resetState, hc, ho]
          · have := noDataAfterEndOfStream_body_append new [] hb
            simpa [noDataAfterEndOfStream] using this
        | some e =>
          refine ⟨new ++ [ServerPacket.Exception e], ?_, ?_⟩
          · simp only [hex, TCPHandler.resetState, TCPHandler.sendException, hc, ho,
              List.append_assoc]
          · rw [noDataAfterEndOfStream_body_append new _ hb]
            rfl
    · rw [hout0] at ho
      unfold TCPHandler.queryIteration
      simp only [htry]
      cases hex : (TCPHandler.sendEndOfStream h1).state.exception with
      | none =>
        refine ⟨new ++ [ServerPacket.EndOfStream], ?_, ?_⟩
        · simp only [TCPHandler.resetState, TCPHandler.sendEndOfStream, ho, List.append_assoc]
        · rw [noDataAfterEndOfStream_body_append new _ hb]
          rfl
      | some e =>
        refine ⟨new ++ [ServerPacket.EndOfStream, ServerPacket.Exception e], ?_, ?_⟩
        · simp [TCPHandler.resetState, TCPHandler.sendEndOfStream, TCPHandler.sendException,
            ho, List.append_assoc]
        · rw [noDataAfterEndOfStream_body_append new _ hb]
          rfl
  · intro h1 rows bytes now hs
    simp [TCPHandler.sendProgress, hs]

/-- Witness for C6: after the `EndOfStream` of a SELECT, a late progress
callback of 7 rows writes nothing. -/
theorem TCPHandler.no_data_or_progress_after_end_of_stream_witness :
    (TCPHandler.sendProgress 7 70 5000000000
        (TCPHandler.sendEndOfStream (duringSelect []))).out
      = (TCPHandler.sendEndOfStream (duringSelect [])).out :=
  ((TCPHandler.no_data_or_progress_after_end_of_stream sampleServer
      (TCPHandler.accept sampleServer [])).2.2
    (TCPHandler.sendEndOfStream (duringSelect [])) 7 70 5000000000 rfl).1

/-! ## TCPHandler: progress accounting -/

/-- C7 (amended).  For every query (the `try` block of one pass of the main
loop, started from the reset state): the sum of the `rows` values of the
`Progress` packets written during the query, PLUS the rows still held in the
accumulator `rows_processed` when the query ends (they are never sent: the
state is reset next), equals the total of the `rows` reported to the
`sendProgress` callback during the query; modulo `2 ^ 64` in general, and
exactly when that total is below `2 ^ 64`.  Likewise for `bytes`. -/
theorem TCPHandler.progress_accounting (ext : Externals) (h : TCPHandler) :
    ∃ new : List ServerPacket,
      (TCPHandler.tryQuery ext (TCPHandler.resetState ext h)).2.out = h.out ++ new ∧
      h.reported_rows
        ≤ (TCPHandler.tryQuery ext (TCPHandler.resetState ext h)).2.reported_rows ∧
      h.reported_bytes
        ≤ (TCPHandler.tryQuery ext (TCPHandler.resetState ext h)).2.reported_bytes ∧
      (progressRows new
          + (TCPHandler.tryQuery ext (TCPHandler.resetState ext h)).2.state.rows_processed)
          % 2 ^ 64
        = ((TCPHandler.tryQuery ext (TCPHandler.resetState ext h)).2.reported_rows
            - h.reported_rows) % 2 ^ 64 ∧
      (progressBytes new
          + (TCPHandler.tryQuery ext (TCPHandler.resetState ext h)).2.state.bytes_processed)
          % 2 ^ 64
        = ((TCPHandler.tryQuery ext (TCPHandler.resetState ext h)).2.reported_bytes
            - h.reported_bytes) % 2 ^ 64 ∧
      ((TCPHandler.tryQuery ext (TCPHandler.resetState ext h)).2.reported_rows
          - h.reported_rows < 2 ^ 64 →
        progressRows new
          + (TCPHandler.tryQuery ext (TCPHandler.resetState ext h)).2.state.rows_processed
        = (TCPHandler.tryQuery ext (TCPHandler.resetState ext h)).2.reported_rows
            - h.reported_rows) ∧
      ((TCPHandler.tryQuery ext (TCPHandler.resetState ext h)).2.reported_bytes
          - h.reported_bytes < 2 ^ 64 →
        progressBytes new
          + (TCPHandler.tryQuery ext (TCPHandler.resetState ext h)).2.state.bytes_processed
        = (TCPHandler.tryQuery ext (TCPHandler.resetState ext h)).2.reported_bytes
            - h.reported_bytes) := by
  have hr0 : (TCPHandler.resetState ext h).state.rows_processed = 0 := rfl
  have hb0 : (TCPHandler.resetState ext h).state.bytes_processed = 0 := rfl
  have hrr : (TCPHandler.resetState ext h).reported_rows = h.reported_rows := rfl
  have hrb : (TCPHandler.resetState ext h).reported_bytes = h.reported_bytes := rfl
  have ho0 : (TCPHandler.resetState ext h).out = h.out := rfl
  rcases TCPHandler.tryQuery_advances ext (TCPHandler.resetState ext h) with
    ⟨t, h1, htry, new, ho, _, r1, r2, b1, b2⟩ | ⟨h1, htry, new, ho, _, r1, r2, b1, b2⟩
  · rw [htry]
    rw [hr0, hrr] at r1 r2
    rw [hb0, hrb] at b1 b2
    rw [ho0] at ho
    refine ⟨new, ho, ?_, ?_, ?_, ?_, ?_, ?_⟩ <;> simp only <;> omega
  · rw [htry]
    rw [hr0, hrr] at r1 r2
    rw [hb0, hrb] at b1 b2
    rw [ho0] at ho
    have hP : progressRows (new ++ [ServerPacket.EndOfStream]) = progressRows new := by
      rw [progressRows_append]; rfl
    have hB : progressBytes (new ++ [ServerPacket.EndOfStream]) = progressBytes new := by
      rw [progressBytes_append]; rfl
    refine ⟨new ++ [ServerPacket.EndOfStream], ?_, ?_, ?_, ?_, ?_, ?_, ?_⟩
    · simp only [TCPHandler.sendEndOfStream, ho, List.append_assoc]
    all_goals (simp only [TCPHandler.sendEndOfStream, hP, hB]; omega)

/-- Witness for C7: a SELECT whose progress callbacks come more than the
interactive delay apart; everything reported is sent. -/
theorem TCPHandler.progress_accounting_witness :
    ∃ new : List ServerPacket,
      (TCPHandler.tryQuery sampleServer
          (TCPHandler.resetState sampleServer
            (TCPHandler.accept sampleServer (clientQuery 1 "SELECT slow")))).2.out
        = [] ++ new ∧
      progressRows new = 5 ∧ progressBytes new = 10 := by
  obtain ⟨new, ho, _, _, _, _, hr, hb⟩ := TCPHandler.progress_accounting sampleServer
    (TCPHandler.accept sampleServer (clientQuery 1 "SELECT slow"))
  have hr1 := hr (by decide)
  have hb1 := hb (by decide)
  exact ⟨new, ho, hr1, hb1⟩

/-- C7 as stated fails: during the sample SELECT the root profiling stream
reports 3 + 2 rows and 6 + 4 bytes to `sendProgress`, all within the
interactive delay, and the server writes no `Progress` packet at all: the sum
of the rows of the `Progress` packets is 0, not 5. -/
theorem TCPHandler.progress_throttled_counterexample :
    (TCPHandler.tryQuery sampleServer
        (TCPHandler.resetState sampleServer
          (TCPHandler.accept sampleServer (clientQuery 1 "SELECT profiling")))).2.out
      = [ServerPacket.Data blockA123, ServerPacket.Data blockA45,
         ServerPacket.Data Block.empty, ServerPacket.EndOfStream] ∧
    (TCPHandler.tryQuery sampleServer
        (TCPHandler.resetState sampleServer
          (TCPHandler.accept sampleServer (clientQuery 1 "SELECT profiling")))).2.reported_rows
      = 5 ∧
    (TCPHandler.tryQuery sampleServer
        (TCPHandler.resetState sampleServer
          (TCPHandler.accept sampleServer (clientQuery 1 "SELECT profiling")))).2.reported_bytes
      = 10 ∧
    progressRows (TCPHandler.tryQuery sampleServer
        (TCPHandler.resetState sampleServer
          (TCPHandler.accept sampleServer (clientQuery 1 "SELECT profiling")))).2.out = 0 ∧
    progressBytes (TCPHandler.tryQuery sampleServer
        (TCPHandler.resetState sampleServer
          (TCPHandler.accept sampleServer (clientQuery 1 "SELECT profiling")))).2.out = 0 :=
  ⟨rfl, rfl, rfl, rfl, rfl⟩

/-! ## TCPHandler: running a SELECT -/

namespace TCPHandler

theorem isQueryCancelled_out (ext : Externals) (now : Nat) (h : TCPHandler) :
    (isQueryCancelled ext now h).2.out = h.out := by
  unfold isQueryCancelled
  simp only
  repeat' split
  all_goals rfl

theorem sendProgress_out (rows bytes now : Nat) (h : TCPHandler) :
    ∃ new : List ServerPacket, (sendProgress rows bytes now h).out = h.out ++ new ∧
      ∀ p ∈ new, p.isProgress = true := by
  unfold sendProgress
  simp only
  split
  · exact ⟨[], by simp, by simp⟩
  · split
    · exact ⟨[], by simp, by simp⟩
    · exact ⟨[_], rfl, by simp [ServerPacket.isProgress]⟩

/-- The callbacks of one `read()` write `Progress` packets only. -/
theorem runCallbacks_out (ext : Externals) (cs : List Callback) :
    ∀ h : TCPHandler, ∃ new : List ServerPacket,
      (runCallbacks ext cs h).2.out = h.out ++ new ∧ ∀ p ∈ new, p.isProgress = true := by
  induction cs with
  | nil => intro h; exact ⟨[], by simp [runCallbacks], by simp⟩
  | cons c cs ih =>
    intro h
    have h1 : ∃ new : List ServerPacket,
        (runCallback ext c h).2.out = h.out ++ new ∧ ∀ p ∈ new, p.isProgress = true := by
      cases c with
      | isQueryCancelled now =>
        have ho := isQueryCancelled_out ext now h
        refine ⟨[], ?_, by simp⟩
        simp only [runCallback]
        split
        · rename_i heq; rw [heq] at ho; simpa using ho
        · rename_i heq; rw [heq] at ho; simpa using ho
      | sendProgress rows bytes now => exact sendProgress_out rows bytes now h
    obtain ⟨n1, o1, p1⟩ := h1
    unfold runCallbacks
    split
    · rename_i heq
      rw [heq] at o1
      exact ⟨n1, o1, p1⟩
    · rename_i h2 heq
      rw [heq] at o1
      obtain ⟨n2, o2, p2⟩ := ih h2
      refine ⟨n1 ++ n2, ?_, ?_⟩
      · rw [o2, o1, List.append_assoc]
      · intro p hp
        rcases List.mem_append.mp hp with hp | hp
        · exact p1 p hp
        · exact p2 p hp

theorem sendData_out (block : Block) (h : TCPHandler) :
    (sendData block h).out = h.out ++ [ServerPacket.Data block] := by
  unfold sendData
  split <;> rfl

theorem filter_not_progress_eq_nil (new : List ServerPacket)
    (hp : ∀ p ∈ new, p.isProgress = true) :
    new.filter (fun p => !p.isProgress) = [] := by
  simp only [List.filter_eq_nil_iff]
  intro p hpm
  simp [hp p hpm]

/-- The pull loop over a stream whose reads yield the non-empty blocks `bs`
and then the terminator: when no read throws, the packets written, the
`Progress` packets left aside, are one `Data` packet per block of `bs` and
then one `Data` packet with the empty block. -/
theorem pullBlocks_out (ext : Externals) (installed : Bool) (tail : List ReadStep)
    (htail : tail = [] ∨ ∃ cbs post, tail = ⟨cbs, Except.ok Block.empty⟩ :: post)
    (pre : List ReadStep) :
    ∀ (bs : List Block) (h : TCPHandler),
      pre.map (fun s => s.result) = bs.map Except.ok →
      (∀ b ∈ bs, b.isEmpty = false) →
      (pullBlocks ext installed (pre ++ tail) h).1 = Except.ok () →
      ∃ new : List ServerPacket,
        (pullBlocks ext installed (pre ++ tail) h).2.out = h.out ++ new ∧
        new.filter (fun p => !p.isProgress)
          = bs.map ServerPacket.Data ++ [ServerPacket.Data Block.empty] := by
  induction pre with
  | nil =>
    intro bs h hpre _ hok
    have hbs : bs = [] := by
      cases bs with
      | nil => rfl
      | cons b bs => simp at hpre
    subst hbs
    rcases htail with ht | ⟨cbs, post, ht⟩
    · subst ht
      refine ⟨[ServerPacket.Data Block.empty], ?_, by simp [ServerPacket.isProgress]⟩
      simp only [List.append_nil, pullBlocks]
      exact sendData_out _ _
    · subst ht
      simp only [List.nil_append] at hok ⊢
      have hcb : ∃ new : List ServerPacket,
          (if installed then runCallbacks ext cbs h else (Except.ok (), h)).2.out = h.out ++ new ∧
          ∀ p ∈ new, p.isProgress = true := by
        cases installed
        · exact ⟨[], by simp, by simp⟩
        · exact runCallbacks_out ext cbs h
      obtain ⟨n1, o1, p1⟩ := hcb
      unfold pullBlocks at hok ⊢
      split
      · rename_i heq
        rw [heq] at hok
        simp at hok
      · rename_i h1 heq
        rw [heq] at o1
        simp only at o1
        have he : Block.empty.isEmpty = true := rfl
        simp only [he, if_true]
        refine ⟨n1 ++ [ServerPacket.Data Block.empty], ?_, ?_⟩
        · rw [sendData_out, o1, List.append_assoc]
        · rw [List.filter_append, filter_not_progress_eq_nil n1 p1]
          simp [ServerPacket.isProgress]
  | cons s pre ih =>
    intro bs h hpre hne hok
    cases bs with
    | nil => simp at hpre
    | cons b bs =>
      simp only [List.map_cons, List.cons.injEq] at hpre
      obtain ⟨hres, hpre1⟩ := hpre
      have hb : b.isEmpty = false := hne b (List.mem_cons_self _ _)
      have hne1 : ∀ c ∈ bs, c.isEmpty = false :=
        fun c hc => hne c (List.mem_cons_of_mem _ hc)
      have hcb : ∃ new : List ServerPacket,
          (if installed then runCallbacks ext s.callbacks h else (Except.ok (), h)).2.out
            = h.out ++ new ∧
          ∀ p ∈ new, p.isProgress = true := by
        cases installed
        · exact ⟨[], by simp, by simp⟩
        · exact runCallbacks_out ext s.callbacks h
      obtain ⟨n1, o1, p1⟩ := hcb
      simp only [List.cons_append] at hok ⊢
      unfold pullBlocks at hok ⊢
      split
      · rename_i heq
        rw [heq] at hok
        simp at hok
      · rename_i h1 heq
        rw [heq] at o1 hok
        simp only at o1 hok
        simp only [hres, hb, Bool.false_eq_true, if_false] at hok ⊢
        obtain ⟨n2, o2, f2⟩ := ih bs (sendData b h1) hpre1 hne1 hok
        refine ⟨n1 ++ ServerPacket.Data b :: n2, ?_, ?_⟩
        · rw [o2, sendData_out, o1]
          simp [List.append_assoc]
        · rw [List.filter_append, filter_not_progress_eq_nil n1 p1, List.nil_append,
            List.filter_cons_of_pos (by simp [ServerPacket.isProgress]), f2]
          simp

end TCPHandler

theorem TCPHandler.pullBlocks_ok_of_not_installed (ext : Externals) (tail : List ReadStep)
    (htail : tail = [] ∨ ∃ cbs post, tail = ⟨cbs, Except.ok Block.empty⟩ :: post)
    (pre : List ReadStep) :
    ∀ (bs : List Block) (h : TCPHandler),
      pre.map (fun s => s.result) = bs.map Except.ok →
      (TCPHandler.pullBlocks ext false (pre ++ tail) h).1 = Except.ok () := by
  induction pre with
  | nil =>
    intro bs h _
    rcases htail with ht | ⟨cbs, post, ht⟩
    · subst ht; rfl
    · subst ht
      have he : Block.empty.isEmpty = true := rfl
      simp [TCPHandler.pullBlocks, he]
  | cons s pre ih =>
    intro bs h hpre
    cases bs with
    | nil => simp at hpre
    | cons b bs =>
      simp only [List.map_cons, List.cons.injEq] at hpre
      obtain ⟨hres, hpre1⟩ := hpre
      simp only [List.cons_append, TCPHandler.pullBlocks, Bool.false_eq_true, if_false, hres]
      split
      · rfl
      · exact ih bs _ hpre1

/-- C3 (amended).  Running a SELECT, `processOrdinaryQuery` followed by
`sendEndOfStream`, on a pipeline whose reads yield the non-empty blocks `bs`
and then the terminator: `sendData` is called for EVERY block read, the
terminator included.  When no read throws (which is certain when the root is
not a profiling stream, since no callback is installed), the packets
written, `Progress` packets left aside, are one `Data` packet per block of
`bs` in order, then one `Data` packet carrying the empty terminator block,
then `EndOfStream`: `n + 1` `Data` packets for `n` non-empty blocks. -/
theorem TCPHandler.select_sends_blocks_terminator_end_of_stream
    (ext : Externals) (h : TCPHandler) (stream : QueryInputStream)
    (pre tail : List ReadStep) (bs : List Block)
    (hin : h.state.io.in_ = some stream)
    (hsteps : stream.steps = pre ++ tail)
    (hpre : pre.map (fun s => s.result) = bs.map Except.ok)
    (hbs : ∀ b ∈ bs, b.isEmpty = false)
    (htail : tail = [] ∨ ∃ cbs post, tail = ⟨cbs, Except.ok Block.empty⟩ :: post) :
    (stream.profiling = false → (TCPHandler.processOrdinaryQuery ext h).1 = Except.ok ()) ∧
    ((TCPHandler.processOrdinaryQuery ext h).1 = Except.ok () →
      ∃ new : List ServerPacket,
        (TCPHandler.sendEndOfStream (TCPHandler.processOrdinaryQuery ext h).2).out
          = h.out ++ new ∧
        new.filter (fun p => !p.isProgress)
          = bs.map ServerPacket.Data
              ++ [ServerPacket.Data Block.empty, ServerPacket.EndOfStream] ∧
        (new.filter ServerPacket.isData).length = bs.length + 1) := by
  have hp : TCPHandler.processOrdinaryQuery ext h
      = TCPHandler.pullBlocks ext stream.profiling (pre ++ tail) h := by
    simp [TCPHandler.processOrdinaryQuery, hin, hsteps]
  rw [hp]
  constructor
  · intro hprof
    rw [hprof]
    exact TCPHandler.pullBlocks_ok_of_not_installed ext tail htail pre bs h hpre
  · intro hok
    obtain ⟨new, ho, hf⟩ :=
      TCPHandler.pullBlocks_out ext stream.profiling tail htail pre bs h hpre hbs hok
    have hfd : new.filter ServerPacket.isData
        = (new.filter (fun p => !p.isProgress)).filter ServerPacket.isData := by
      rw [List.filter_filter]
      congr 1
      funext p
      cases p <;> rfl
    refine ⟨new ++ [ServerPacket.EndOfStream], ?_, ?_, ?_⟩
    · simp only [TCPHandler.sendEndOfStream, ho, List.append_assoc]
    · rw [List.filter_append, hf]
      simp [ServerPacket.isProgress]
    · rw [List.filter_append, hfd, hf, List.filter_append]
      have hall : (bs.map ServerPacket.Data).filter ServerPacket.isData
          = bs.map ServerPacket.Data := by
        rw [List.filter_eq_self]
        intro p hpm
        obtain ⟨b, _, hb⟩ := List.mem_map.mp hpm
        rw [← hb]; rfl
      rw [hall]
      simp [ServerPacket.isData]

/-- Witness for C3 on the scenario of the specification: a pipeline that
produces blocks of 3 and 2 rows and then the terminator. -/
theorem TCPHandler.select_sends_blocks_terminator_end_of_stream_witness :
    ∃ new : List ServerPacket,
      (TCPHandler.sendEndOfStream
          (TCPHandler.processOrdinaryQuery sampleServer afterSelectQuery).2).out
        = afterSelectQuery.out ++ new ∧
      new.filter (fun p => !p.isProgress)
        = [blockA123, blockA45].map ServerPacket.Data
            ++ [ServerPacket.Data Block.empty, ServerPacket.EndOfStream] ∧
      (new.filter ServerPacket.isData).length = [blockA123, blockA45].length + 1 :=
  (TCPHandler.select_sends_blocks_terminator_end_of_stream sampleServer afterSelectQuery
    selectPlain [⟨[], Except.ok blockA123⟩, ⟨[], Except.ok blockA45⟩]
    [⟨[], Except.ok Block.empty⟩] [blockA123, blockA45] rfl rfl rfl (by decide)
    (Or.inr ⟨[], [], rfl⟩)).2 rfl

/-- C3 as stated fails on its own example: for a pipeline producing blocks of
3, 2 and 0 rows the server writes three `Data` packets, the last one carrying
the empty terminator block, and then `EndOfStream`; not two `Data` packets. -/
theorem TCPHandler.select_terminator_is_sent_counterexample :
    (TCPHandler.sendEndOfStream
        (TCPHandler.processOrdinaryQuery sampleServer afterSelectQuery).2).out
      = [ServerPacket.Data blockA123, ServerPacket.Data blockA45,
         ServerPacket.Data Block.empty, ServerPacket.EndOfStream] ∧
    (TCPHandler.sendEndOfStream
        (TCPHandler.processOrdinaryQuery sampleServer afterSelectQuery).2).out
      ≠ [ServerPacket.Data blockA123, ServerPacket.Data blockA45, ServerPacket.EndOfStream] ∧
    ((TCPHandler.sendEndOfStream
        (TCPHandler.processOrdinaryQuery sampleServer afterSelectQuery).2).out.filter
          ServerPacket.isData).length = 3 := by
  refine ⟨rfl, by decide, rfl⟩

/-! ## TCPHandler: running an INSERT -/

namespace TCPHandler

end TCPHandler

theorem readVarUInt_length (input : List Token) :
    (readVarUInt input).2.length ≤ input.length := by
  unfold readVarUInt
  split <;> simp

theorem readStringBinary_length (input : List Token) :
    (readStringBinary input).2.length ≤ input.length := by
  unfold readStringBinary
  split <;> simp

theorem readIntBinary_length (input : List Token) :
    (readIntBinary input).2.length ≤ input.length := by
  unfold readIntBinary
  split <;> simp

theorem readBlock_length (input : List Token) :
    (readBlock input).2.length ≤ input.length := by
  unfold readBlock
  split <;> simp

namespace TCPHandler

theorem outputCall_in (c : OutputCall) (h : TCPHandler) :
    (outputCall c h).2.in_ = h.in_ := by
  unfold outputCall
  split <;> rfl

theorem receiveData_in (h : TCPHandler) :
    (receiveData h).2.in_.length ≤ h.in_.length := by
  have hl := readBlock_length h.in_
  unfold receiveData
  have hin : (if h.state.block_in.isNone then
      { h with state := { h.state with
          maybe_compressed_in := some (h.state.compression == Protocol.Compression.Enable),
          block_in := some h.state.io.out_sample } }
    else h).in_ = h.in_ := by
    split <;> rfl
  simp only [hin]
  rcases hr : readBlock h.in_ with ⟨r, in1⟩
  rw [hr] at hl
  cases r with
  | error e => exact hl
  | ok block =>
    simp only
    split
    · split
      · rename_i heq
        have h2 := congrArg (fun p => p.2.in_) heq
        simp only [outputCall_in] at h2
        rw [← h2]
        exact hl
      · rename_i heq
        have h2 := congrArg (fun p => p.2.in_) heq
        simp only [outputCall_in] at h2
        rw [← h2]
        exact hl
    · exact hl

theorem receiveQuery_in (ext : Externals) (h : TCPHandler) :
    (receiveQuery ext h).2.in_.length ≤ h.in_.length := by
  unfold receiveQuery
  have l1 := readIntBinary_length h.in_
  rcases hr1 : readIntBinary h.in_ with ⟨r1, in1⟩
  rw [hr1] at l1
  cases r1 with
  | error e => exact l1
  | ok query_id =>
    simp only
    have l2 := readVarUInt_length in1
    rcases hr2 : readVarUInt in1 with ⟨r2, in2⟩
    rw [hr2] at l2
    cases r2 with
    | error e => exact Nat.le_trans l2 l1
    | ok stage =>
      simp only
      have l3 := readVarUInt_length in2
      rcases hr3 : readVarUInt in2 with ⟨r3, in3⟩
      rw [hr3] at l3
      cases r3 with
      | error e => exact Nat.le_trans l3 (Nat.le_trans l2 l1)
      | ok compression =>
        simp only
        have l4 := readStringBinary_length in3
        rcases hr4 : readStringBinary in3 with ⟨r4, in4⟩
        rw [hr4] at l4
        have l : in4.length ≤ h.in_.length :=
          Nat.le_trans l4 (Nat.le_trans l3 (Nat.le_trans l2 l1))
        cases r4 with
        | error e => exact l
        | ok query =>
          simp only
          split <;> exact l

/-- Receiving a packet takes at least one value from a non-empty input. -/
theorem receivePacketFrom_in (ext : Externals) (input : List Token) :
    ∀ h : TCPHandler,
      (input = [] → (receivePacketFrom ext input h).2.in_ = h.in_) ∧
      (input ≠ [] → (receivePacketFrom ext input h).2.in_.length < input.length) := by
  induction input with
  | nil => intro h; exact ⟨fun _ => rfl, fun hn => absurd rfl hn⟩
  | cons tok rest ih =>
    intro h
    refine ⟨fun hn => List.noConfusion hn, fun _ => ?_⟩
    cases tok with
    | varUInt packet_type =>
      simp only [receivePacketFrom, List.length_cons]
      split
      · split
        · exact Nat.lt_succ_self _
        · have l := receiveQuery_in ext { h with in_ := rest }
          split
          · rename_i heq
            rw [heq] at l
            exact Nat.lt_succ_of_le l
          · rename_i heq
            rw [heq] at l
            exact Nat.lt_succ_of_le l
      · split
        · split
          · exact Nat.lt_succ_self _
          · exact Nat.lt_succ_of_le (receiveData_in { h with in_ := rest })
        · split
          · obtain ⟨k1, k2⟩ := ih { h with in_ := rest, out := h.out ++ [ServerPacket.Pong] }
            cases rest with
            | nil =>
              have := k1 rfl
              rw [this]
              exact Nat.lt_succ_self _
            | cons t2 r2 =>
              exact Nat.lt_succ_of_lt (k2 (List.cons_ne_nil _ _))
          · exact Nat.lt_succ_self _
    | stringBinary s => simp [receivePacketFrom]
    | intBinary x => simp [receivePacketFrom]
    | block b => simp [receivePacketFrom]

theorem receivePacket_in (ext : Externals) (h : TCPHandler) :
    (receivePacket ext h).2.in_.length ≤ h.in_.length ∧
    (h.in_ ≠ [] → (receivePacket ext h).2.in_.length < h.in_.length) ∧
    (h.in_ = [] → (receivePacket ext h).1 = Except.error readAfterEof) := by
  obtain ⟨k1, k2⟩ := receivePacketFrom_in ext h.in_ h
  refine ⟨?_, k2, ?_⟩
  · by_cases hn : h.in_ = []
    · unfold receivePacket
      rw [k1 hn]
    · exact Nat.le_of_lt (k2 hn)
  · intro hn
    unfold receivePacket
    rw [hn]
    rfl

/-- The loop `while (receivePacket()) ;` ends before its fuel does: more fuel
than the length of the input changes nothing. -/
theorem receivePackets_fuel (ext : Externals) (fuel : Nat) :
    ∀ h : TCPHandler, h.in_.length ≤ fuel →
      receivePackets ext fuel h = receivePackets ext (fuel + 1) h := by
  induction fuel with
  | zero =>
    intro h hl
    have hn : h.in_ = [] := List.length_eq_zero.mp (Nat.le_zero.mp hl)
    have he := (receivePacket_in ext h).2.2 hn
    rcases hr : receivePacket ext h with ⟨r, h1⟩
    rw [hr] at he
    simp only at he
    subst he
    simp only [receivePackets, hr]
  | succ fuel ih =>
    intro h hl
    obtain ⟨_, k2, k3⟩ := receivePacket_in ext h
    rcases hr : receivePacket ext h with ⟨r, h1⟩
    rw [hr] at k2 k3
    simp only at k2 k3
    cases r with
    | error e => simp only [receivePackets, hr]
    | ok b =>
      cases b with
      | false => simp only [receivePackets, hr]
      | true =>
        have hn : h.in_ ≠ [] := by
          intro hn
          have := k3 hn
          exact Except.noConfusion this
        have hlt := k2 hn
        have := ih h1 (by omega)
        rw [receivePackets, hr]
        simp only
        rw [this]
        conv => rhs; rw [receivePackets, hr]

end TCPHandler

namespace TCPHandler

theorem sendData_in (block : Block) (h : TCPHandler) : (sendData block h).in_ = h.in_ := by
  unfold sendData
  split <;> rfl

theorem sendProgress_in (rows bytes now : Nat) (h : TCPHandler) :
    (sendProgress rows bytes now h).in_ = h.in_ := by
  unfold sendProgress
  dsimp only
  repeat' split
  all_goals rfl

theorem isQueryCancelled_in (ext : Externals) (now : Nat) (h : TCPHandler) :
    (isQueryCancelled ext now h).2.in_.length ≤ h.in_.length := by
  have hl := readVarUInt_length h.in_
  unfold isQueryCancelled
  simp only
  rcases hr : readVarUInt h.in_ with ⟨r, in1⟩
  rw [hr] at hl
  cases r <;> simp only <;> repeat' split
  all_goals first | exact Nat.le_refl _ | exact hl

theorem runCallbacks_in (ext : Externals) (cs : List Callback) :
    ∀ h : TCPHandler, (runCallbacks ext cs h).2.in_.length ≤ h.in_.length := by
  induction cs with
  | nil => intro h; exact Nat.le_refl _
  | cons c cs ih =>
    intro h
    have h1 : (runCallback ext c h).2.in_.length ≤ h.in_.length := by
      cases c with
      | isQueryCancelled now =>
        have := isQueryCancelled_in ext now h
        simp only [runCallback]
        split
        · rename_i heq; rw [heq] at this; exact this
        · rename_i heq; rw [heq] at this; exact this
      | sendProgress rows bytes now =>
        simp only [runCallback, sendProgress_in]
        exact Nat.le_refl _
    unfold runCallbacks
    split
    · rename_i heq; rw [heq] at h1; exact h1
    · rename_i h2 heq
      rw [heq] at h1
      exact Nat.le_trans (ih h2) h1

theorem pullBlocks_in (ext : Externals) (installed : Bool) (steps : List ReadStep) :
    ∀ h : TCPHandler, (pullBlocks ext installed steps h).2.in_.length ≤ h.in_.length := by
  induction steps with
  | nil =>
    intro h
    simp only [pullBlocks, sendData_in]
    exact Nat.le_refl _
  | cons step rest ih =>
    intro h
    have h1 : (if installed then runCallbacks ext step.callbacks h
        else (Except.ok (), h)).2.in_.length ≤ h.in_.length := by
      cases installed
      · exact Nat.le_refl _
      · exact runCallbacks_in ext step.callbacks h
    unfold pullBlocks
    split
    · rename_i heq; rw [heq] at h1; exact h1
    · rename_i h2 heq
      rw [heq] at h1
      split
      · exact h1
      · split
        · rw [sendData_in]; exact h1
        · have := ih (sendData ‹Block› h2)
          rw [sendData_in] at this
          exact Nat.le_trans this h1

theorem processOrdinaryQuery_in (ext : Externals) (h : TCPHandler) :
    (processOrdinaryQuery ext h).2.in_.length ≤ h.in_.length := by
  unfold processOrdinaryQuery
  split
  · exact Nat.le_refl _
  · exact pullBlocks_in ext _ _ h

theorem receivePackets_in (ext : Externals) (fuel : Nat) :
    ∀ h : TCPHandler, (receivePackets ext fuel h).2.in_.length ≤ h.in_.length := by
  induction fuel with
  | zero =>
    intro h
    have h1 := (receivePacket_in ext h).1
    unfold receivePackets
    split
    · rename_i heq; rw [heq] at h1; exact h1
    · rename_i heq; rw [heq] at h1; exact h1
  | succ fuel ih =>
    intro h
    have h1 := (receivePacket_in ext h).1
    unfold receivePackets
    split
    · rename_i heq; rw [heq] at h1; exact h1
    · rename_i h2 heq; rw [heq] at h1; exact Nat.le_trans (ih h2) h1
    · rename_i heq; rw [heq] at h1; exact h1

theorem processInsertQuery_in (ext : Externals) (h : TCPHandler) :
    (processInsertQuery ext h).2.in_.length ≤ h.in_.length := by
  have h2 := outputCall_in .writePrefix (sendData h.state.io.out_sample h)
  rw [sendData_in] at h2
  unfold processInsertQuery
  simp only
  split
  · rename_i heq
    rw [heq] at h2
    simp only at h2
    exact Nat.le_of_eq (congrArg List.length h2)
  · rename_i h3 heq
    rw [heq] at h2
    simp only at h2
    have h4 := Nat.le_trans (receivePackets_in ext h3.in_.length h3)
      (Nat.le_of_eq (congrArg List.length h2))
    split
    · rename_i heq2
      rw [heq2] at h4
      exact h4
    · rename_i h5 heq2
      rw [heq2] at h4
      rw [outputCall_in]
      exact h4

/-- The `try` block takes at least one value from a non-empty input. -/
theorem tryQuery_in (ext : Externals) (h : TCPHandler) (hn : h.in_ ≠ []) :
    (tryQuery ext h).2.in_.length < h.in_.length := by
  have h1 := (receivePacket_in ext h).2.1 hn
  unfold tryQuery
  split
  · rename_i heq; rw [heq] at h1; exact h1
  · rename_i b h2 heq
    rw [heq] at h1
    simp only at h1
    have h3 : (if (h2.state.io.out).isSome then
            processInsertQuery ext { h2 with after_check_cancelled := h2.clock,
                                             after_send_progress := h2.clock }
         else
            processOrdinaryQuery ext { h2 with after_check_cancelled := h2.clock,
                                               after_send_progress := h2.clock }).2.in_.length
        ≤ h2.in_.length := by
      split
      · exact processInsertQuery_in ext _
      · exact processOrdinaryQuery_in ext _
    simp only
    split
    · rename_i heq2
      rw [heq2] at h3
      exact Nat.lt_of_le_of_lt h3 h1
    · rename_i heq2
      rw [heq2] at h3
      exact Nat.lt_of_le_of_lt h3 h1

theorem catchQuery_in (t : Thrown) (h : TCPHandler) :
    (catchQuery t h).2.in_ = h.in_ := by
  cases t with
  | dbException e =>
    simp only [catchQuery]
    split <;> rfl
  | pocoException m c => rfl
  | stdException w => rfl
  | unknown => rfl

/-- One pass of the main loop takes at least one value from a non-empty input. -/
theorem queryIteration_in (ext : Externals) (h : TCPHandler) (hn : h.in_ ≠ []) :
    (queryIteration ext h).2.in_.length < h.in_.length := by
  have h1 := tryQuery_in ext (resetState ext h) hn
  have hr : (resetState ext h).in_ = h.in_ := rfl
  rw [hr] at h1
  unfold queryIteration
  simp only
  rcases htry : tryQuery ext (resetState ext h) with ⟨r, h2⟩
  rw [htry] at h1
  simp only at h1
  cases r with
  | ok u =>
    simp only
    split <;> exact h1
  | error t =>
    simp only
    have hc := catchQuery_in t h2
    rcases hcq : catchQuery t h2 with ⟨r2, h3⟩
    rw [hcq] at hc
    simp only at hc
    cases r2 with
    | error t2 => simp only; rw [hc]; exact h1
    | ok u =>
      simp only
      split <;> (simp only [resetState, sendException]; rw [hc]; exact h1)

/-- The main loop ends before its fuel does: more fuel than the length of the
input plus one changes nothing. -/
theorem mainLoop_fuel (ext : Externals) (fuel : Nat) :
    ∀ h : TCPHandler, h.in_.length < fuel →
      mainLoop ext fuel h = mainLoop ext (fuel + 1) h := by
  induction fuel with
  | zero => intro h hl; exact absurd hl (Nat.not_lt_zero _)
  | succ fuel ih =>
    intro h hl
    by_cases hstop : (h.daemon_is_cancelled || h.in_.isEmpty) = true
    · simp only [mainLoop, hstop, if_true]
    · have hstop1 : (h.daemon_is_cancelled || h.in_.isEmpty) = false := by simpa using hstop
      have hn : h.in_ ≠ [] := by
        intro hnil
        rw [hnil] at hstop1
        simp at hstop1
      have hlt := queryIteration_in ext h hn
      rw [mainLoop, mainLoop]
      simp only [hstop1, Bool.false_eq_true, if_false]
      rcases hq : queryIteration ext h with ⟨r, h1⟩
      rw [hq] at hlt
      simp only at hlt
      cases r with
      | error t => rfl
      | ok u =>
        simp only
        exact ih h1 (by omega)

end TCPHandler

/-! ## TCPHandler: packet dispatch -/

/-- C11.  Packet dispatch in `receivePacket`: a Ping packet makes the server
write exactly one `Pong`, leaves the query state (and everything else but the
socket) unchanged and goes on with the next packet; a Query packet received
while the query state is not empty, and a Data packet received while the
query state is empty, each raise `UNEXPECTED_PACKET_FROM_CLIENT`; every packet
type other than Query, Data and Ping raises `UNKNOWN_PACKET_FROM_CLIENT`.  In
each case exactly the packet type has been read. -/
theorem TCPHandler.receivePacket_dispatch (ext : Externals) (h : TCPHandler)
    (t : Nat) (rest : List Token) (hin : h.in_ = Token.varUInt t :: rest) :
    (t = Protocol.Client.Ping.code →
      TCPHandler.receivePacket ext h
        = TCPHandler.receivePacket ext
            { h with in_ := rest, out := h.out ++ [ServerPacket.Pong] }) ∧
    (t = Protocol.Client.Query.code → ext.empty h.state = false →
      TCPHandler.receivePacket ext h
        = (Except.error
            (TCPHandler.unexpectedPacket "Unexpected packet Query received from client"),
            { h with in_ := rest })) ∧
    (t = Protocol.Client.Data.code → ext.empty h.state = true →
      TCPHandler.receivePacket ext h
        = (Except.error
            (TCPHandler.unexpectedPacket "Unexpected packet Data received from client"),
            { h with in_ := rest })) ∧
    (t ≠ Protocol.Client.Query.code → t ≠ Protocol.Client.Data.code →
      t ≠ Protocol.Client.Ping.code →
      TCPHandler.receivePacket ext h = (Except.error TCPHandler.unknownPacket,
        { h with in_ := rest })) := by
  refine ⟨?_, ?_, ?_, ?_⟩
  · intro ht
    subst ht
    simp [TCPHandler.receivePacket, hin, TCPHandler.receivePacketFrom, Protocol.Client.code]
  · intro ht he
    subst ht
    simp [TCPHandler.receivePacket, hin, TCPHandler.receivePacketFrom, Protocol.Client.code, he]
  · intro ht he
    subst ht
    simp [TCPHandler.receivePacket, hin, TCPHandler.receivePacketFrom, Protocol.Client.code, he]
  · intro h1 h2 h3
    simp [TCPHandler.receivePacket, hin, TCPHandler.receivePacketFrom, h1, h2, h3]

/-- Witness for C11 on the scenario of the specification: after the handshake
the client sends a Ping; the server writes one `Pong`, the query state is the
one it was, and the dispatch goes on with what follows (here the end of the
input). -/
theorem TCPHandler.receivePacket_dispatch_witness :
    (TCPHandler.receivePacket sampleServer
        (TCPHandler.accept sampleServer [Token.varUInt 4])).2.out = [ServerPacket.Pong] ∧
    sampleServer.empty (TCPHandler.receivePacket sampleServer
        (TCPHandler.accept sampleServer [Token.varUInt 4])).2.state = true ∧
    TCPHandler.receivePacket sampleServer (TCPHandler.accept sampleServer [Token.varUInt 3])
      = (Except.error TCPHandler.unknownPacket,
          { TCPHandler.accept sampleServer [Token.varUInt 3] with in_ := [] }) := by
  have h4 := (TCPHandler.receivePacket_dispatch sampleServer
    (TCPHandler.accept sampleServer [Token.varUInt 4]) 4 [] rfl).1 rfl
  have h3 := (TCPHandler.receivePacket_dispatch sampleServer
    (TCPHandler.accept sampleServer [Token.varUInt 3]) 3 [] rfl).2.2.2
      (by decide) (by decide) (by decide)
  refine ⟨?_, ?_, h3⟩
  · rw [h4]; rfl
  · rw [h4]; rfl

/-! ## AddingDefaultBlockInputStream: the terminator -/

/-- C12.  `AddingDefaultBlockInputStream.readImpl` returns the terminator (an
empty block) if and only if the upstream read returned the terminator: an
empty upstream block is passed through as it is, with no column added; a
non-empty upstream block yields a non-empty block; an upstream exception is
propagated. -/
theorem AddingDefaultBlockInputStream.readImpl_terminator_iff
    (s : AddingDefaultBlockInputStream) :
    ((∃ b, (AddingDefaultBlockInputStream.readImpl s).1 = Except.ok b ∧ b.isEmpty = true) ↔
      (∃ b, s.input.read.1 = Except.ok b ∧ b.isEmpty = true)) ∧
    (∀ b, s.input.read.1 = Except.ok b → b.isEmpty = true →
      (AddingDefaultBlockInputStream.readImpl s).1 = Except.ok b) ∧
    (∀ b, s.input.read.1 = Except.ok b → b.isEmpty = false →
      ∃ out, (AddingDefaultBlockInputStream.readImpl s).1 = Except.ok out ∧
        out.isEmpty = false) ∧
    (∀ e, s.input.read.1 = Except.error e →
      (AddingDefaultBlockInputStream.readImpl s).1 = Except.error e) := by
  rcases hr : s.input.read with ⟨r, in1⟩
  cases r with
  | error e =>
    have hv : (AddingDefaultBlockInputStream.readImpl s).1 = Except.error e := by
      simp [AddingDefaultBlockInputStream.readImpl, hr]
    refine ⟨⟨?_, ?_⟩, ?_, ?_, ?_⟩
    · rintro ⟨b, hb, _⟩
      rw [hv] at hb
      exact Except.noConfusion hb
    · rintro ⟨b, hb, _⟩
      exact Except.noConfusion hb
    · intro b hb; exact Except.noConfusion hb
    · intro b hb; exact Except.noConfusion hb
    · intro e2 he
      simp only [Except.error.injEq] at he
      rw [hv, he]
  | ok res =>
    cases hres : res.isEmpty with
    | true =>
      have hv : (AddingDefaultBlockInputStream.readImpl s).1 = Except.ok res := by
        simp [AddingDefaultBlockInputStream.readImpl, hr, hres]
      refine ⟨⟨fun _ => ⟨res, rfl, hres⟩, fun _ => ⟨res, hv, hres⟩⟩, ?_, ?_, ?_⟩
      · intro b hb _
        simp only [Except.ok.injEq] at hb
        rw [hv, hb]
      · intro b hb hne
        simp only [Except.ok.injEq] at hb
        rw [← hb, hres] at hne
        exact Bool.noConfusion hne
      · intro e he; exact Except.noConfusion he
    | false =>
      obtain ⟨added, hrun, _, _⟩ :=
        AddingDefaultBlockInputStream.addColumns_spec s.required_columns res hres
      have hne : (Block.mk (res.data ++ added)).isEmpty = false := by
        cases res with
        | mk d =>
          cases d with
          | nil => simp [Block.isEmpty] at hres
          | cons x xs => simp [Block.isEmpty]
      have hv : (AddingDefaultBlockInputStream.readImpl s).1
          = Except.ok ⟨res.data ++ added⟩ := by
        simp [AddingDefaultBlockInputStream.readImpl, hr, hres, hrun]
      refine ⟨⟨?_, ?_⟩, ?_, ?_, ?_⟩
      · rintro ⟨b, hb, he⟩
        rw [hv] at hb
        simp only [Except.ok.injEq] at hb
        rw [← hb, hne] at he
        exact Bool.noConfusion he
      · rintro ⟨b, hb, he⟩
        simp only [Except.ok.injEq] at hb
        rw [← hb, hres] at he
        exact Bool.noConfusion he
      · intro b hb he
        simp only [Except.ok.injEq] at hb
        rw [← hb, hres] at he
        exact Bool.noConfusion he
      · intro b _ _
        exact ⟨_, hv, hne⟩
      · intro e he; exact Except.noConfusion he

/-- Witness for C12: upstream yields the terminator; the stream returns it
with no column added, although two columns are required. -/
theorem AddingDefaultBlockInputStream.readImpl_terminator_iff_witness :
    (AddingDefaultBlockInputStream.readImpl ⟨[Except.ok Block.empty], schemaAB⟩).1
      = Except.ok Block.empty :=
  (AddingDefaultBlockInputStream.readImpl_terminator_iff
    ⟨[Except.ok Block.empty], schemaAB⟩).2.1 Block.empty rfl rfl

/-! ## AsynchronousBlockInputStream: one block of read-ahead -/

namespace AsynchronousBlockInputStream

theorem calculate_schedule_calls (s : AsynchronousBlockInputStream) :
    (calculate s).schedule_calls = s.schedule_calls := by
  unfold calculate
  split <;> rfl

theorem calculate_in_read_calls (s : AsynchronousBlockInputStream) :
    (calculate s).in_read_calls = s.in_read_calls + 1 := by
  unfold calculate
  split <;> rfl

theorem poolWait_of_pool_zero (s : AsynchronousBlockInputStream) (h : s.pool = 0) :
    poolWait s = s := by
  simp [poolWait, h, workerRuns]

theorem poolWait_of_pool_one (s : AsynchronousBlockInputStream) (h : s.pool = 1) :
    poolWait s = { calculate s with pool := 0 } := by
  simp [poolWait, h, workerRuns, worker]

/-- What `deliver` returns and leaves, by the exception stored and the block
buffered. -/
theorem deliver_cases (t : AsynchronousBlockInputStream) :
    (∃ e, t.exception = some e ∧ deliver t = (Except.error e, t)) ∨
    (t.exception = none ∧ t.block.isEmpty = true ∧ deliver t = (Except.ok t.block, t)) ∨
    (t.exception = none ∧ t.block.isEmpty = false ∧
      deliver t = (Except.ok t.block, next { t with block := Block.empty })) := by
  cases he : t.exception with
  | some e => left; exact ⟨e, rfl, by simp [deliver, he]⟩
  | none =>
    cases hb : t.block.isEmpty with
    | true => right; left; exact ⟨rfl, rfl, by simp [deliver, he, hb]⟩
    | false => right; right; exact ⟨rfl, rfl, by simp [deliver, he, hb]⟩

theorem wellformed_worker (k : Nat) (s : AsynchronousBlockInputStream)
    (h : Wellformed k s) : Wellformed k (worker s) := by
  obtain ⟨h1, h2, h3, h4⟩ := h
  have hp : s.pool = 0 ∨ s.pool = 1 := by omega
  rcases hp with hp | hp
  · simp only [worker, hp]
    exact ⟨h1, h2, h3, h4⟩
  · have hs : s.started = true := by
      cases hst : s.started with
      | true => rfl
      | false => have := (h3 hst).1; omega
    simp only [worker, hp]
    refine ⟨by simp, by simp, ?_, ?_⟩
    · intro hf
      have : (calculate s).started = false := hf
      rw [calculate_started, hs] at this
      exact Bool.noConfusion this
    · intro _
      have h5 := h4 hs
      simp only [requested] at h5 ⊢
      simp only [calculate_in_read_calls]
      omega

theorem wellformed_poll (k : Nat) (s : AsynchronousBlockInputStream)
    (h : Wellformed k s) (milliseconds : Nat) (worker_finishes : Bool) :
    Wellformed k (poll milliseconds worker_finishes s).2 := by
  have h1 : Wellformed k (if !s.started then { next s with started := true } else s) := by
    cases hst : s.started with
    | true => simpa using h
    | false =>
      obtain ⟨_, _, h3, _⟩ := h
      obtain ⟨p1, p2, p3, p4, p5⟩ := h3 hst
      simp only [Bool.not_false, if_true]
      refine ⟨by simp [next, p1], fun _ => p2, ?_, ?_⟩
      · intro hf; exact Bool.noConfusion hf
      · intro _
        simp [requested, next, p1, p3, p5]
  unfold poll
  cases worker_finishes with
  | false => exact h1
  | true => exact wellformed_worker k _ h1

/-- The stream on which `readImpl` hands out its result: started, with no
task outstanding, having requested `k + 1` computations. -/
theorem awaited (k : Nat) (s : AsynchronousBlockInputStream) (h : Wellformed k s) :
    (if !s.started then { calculate s with started := true } else poolWait s).started = true ∧
    (if !s.started then { calculate s with started := true } else poolWait s).pool = 0 ∧
    requested (if !s.started then { calculate s with started := true } else poolWait s)
      = k + 1 ∧
    (if !s.started then { calculate s with started := true } else poolWait s).schedule_calls
      = s.schedule_calls ∧
    (if !s.started then { calculate s with started := true } else poolWait s).in_read_calls
      = s.in_read_calls + (if s.started then s.pool else 1) := by
  obtain ⟨h1, h2, h3, h4⟩ := h
  cases hst : s.started with
  | false =>
    obtain ⟨p1, p2, p3, p4, p5⟩ := h3 hst
    simp only [Bool.not_false, if_true, Bool.false_eq_true, if_false]
    refine ⟨trivial, ?_, ?_, ?_, ?_⟩
    · exact (calculate_pool s).trans p1
    · simp only [requested]
      rw [calculate_in_read_calls, calculate_pool, p1, p3, p5]
    · exact calculate_schedule_calls s
    · exact calculate_in_read_calls s
  | true =>
    have h5 := h4 hst
    simp only [Bool.not_true, Bool.false_eq_true, if_false, if_true]
    have hp : s.pool = 0 ∨ s.pool = 1 := by omega
    rcases hp with hp | hp
    · rw [poolWait_of_pool_zero s hp]
      exact ⟨hst, hp, h5, rfl, by omega⟩
    · rw [poolWait_of_pool_one s hp]
      refine ⟨(calculate_started s).trans hst, rfl, ?_, calculate_schedule_calls s, ?_⟩
      · simp only [requested] at h5 ⊢
        simp only [calculate_in_read_calls]
        omega
      · simp only [calculate_in_read_calls, hp]

/-- One `read` of a well-formed stream: the invariant goes on, with one more
block counted exactly when the read returns a non-empty block; the read
schedules one computation exactly in that case, after all earlier ones have
run. -/
theorem wellformed_read (k : Nat) (s : AsynchronousBlockInputStream)
    (h : Wellformed k s) :
    Wellformed (k + (if returnsBlock (readImpl s).1 then 1 else 0)) (readImpl s).2 ∧
    (readImpl s).2.schedule_calls
      = s.schedule_calls + (if returnsBlock (readImpl s).1 then 1 else 0) ∧
    (readImpl s).2.pool = (if returnsBlock (readImpl s).1 then 1 else 0) ∧
    (readImpl s).2.in_read_calls = s.in_read_calls + (if s.started then s.pool else 1) := by
  obtain ⟨a1, a2, a3, a4, a5⟩ := awaited k s h
  rw [readImpl_eq_deliver]
  generalize (if !s.started then { calculate s with started := true } else poolWait s) = t
    at a1 a2 a3 a4 a5 ⊢
  rcases deliver_cases t with ⟨e, _, hd⟩ | ⟨_, hb, hd⟩ | ⟨_, hb, hd⟩
  · rw [hd]
    simp only [returnsBlock, Bool.false_eq_true, if_false, Nat.add_zero]
    refine ⟨⟨by omega, ?_, ?_, fun _ => a3⟩, a4, a2, a5⟩
    · intro hp; omega
    · intro hf; rw [a1] at hf; exact Bool.noConfusion hf
  · rw [hd]
    simp only [returnsBlock, hb, Bool.not_true, Bool.false_eq_true, if_false, Nat.add_zero]
    refine ⟨⟨by omega, fun _ => hb, ?_, fun _ => a3⟩, a4, a2, a5⟩
    intro hf; rw [a1] at hf; exact Bool.noConfusion hf
  · rw [hd]
    simp only [returnsBlock, hb, Bool.not_false, if_true]
    refine ⟨⟨?_, ?_, ?_, ?_⟩, ?_, ?_, ?_⟩
    · simp [next, a2]
    · intro _; rfl
    · intro hf
      have : t.started = false := hf
      rw [a1] at this
      exact Bool.noConfusion this
    · intro _
      simp only [requested, next] at a3 ⊢
      omega
    · simp [next, a4]
    · simp [next, a2]
    · simpa [next] using a5

end AsynchronousBlockInputStream

namespace AsynchronousBlockInputStream

theorem wellformed_create (up : IBlockInputStream) : Wellformed 0 (create up) := by
  refine ⟨by simp [create], ?_, ?_, ?_⟩
  · intro hp; simp [create] at hp
  · intro _; exact ⟨rfl, rfl, rfl, rfl, rfl⟩
  · intro hs; simp [create] at hs

theorem blocksReturned_cons (s : AsynchronousBlockInputStream) (c : Call)
    (calls : List Call) :
    blocksReturned s (c :: calls)
      = (if c.isRead && returnsBlock (readImpl s).1 then 1 else 0)
        + blocksReturned (step s c).1 calls := by
  cases c with
  | poll milliseconds worker_finishes =>
    simp [blocksReturned, reads, step, Call.isRead]
  | worker => simp [blocksReturned, reads, step, Call.isRead]
  | read =>
    simp only [blocksReturned, reads, step, Call.isRead, Bool.true_and, List.countP_cons]
    omega

/-- One call keeps the invariant, counting one more block when it is a read
that returns a non-empty block. -/
theorem wellformed_step (k : Nat) (s : AsynchronousBlockInputStream)
    (h : Wellformed k s) (c : Call) :
    Wellformed (k + (if c.isRead && returnsBlock (readImpl s).1 then 1 else 0))
      (step s c).1 := by
  cases c with
  | poll milliseconds worker_finishes =>
    simpa [step, Call.isRead] using wellformed_poll k s h milliseconds worker_finishes
  | worker => simpa [step, Call.isRead] using wellformed_worker k s h
  | read => simpa [step, Call.isRead] using (wellformed_read k s h).1

/-- Every sequence of calls keeps the invariant. -/
theorem wellformed_after (calls : List Call) :
    ∀ (k : Nat) (s : AsynchronousBlockInputStream), Wellformed k s →
      Wellformed (k + blocksReturned s calls) (after s calls) := by
  induction calls with
  | nil =>
    intro k s h
    simpa [blocksReturned, reads, after] using h
  | cons c calls ih =>
    intro k s h
    have h1 := ih _ _ (wellformed_step k s h c)
    rw [blocksReturned_cons, after, ← Nat.add_assoc]
    exact h1

theorem worker_started (s : AsynchronousBlockInputStream) :
    (worker s).started = s.started := by
  unfold worker
  split
  · rfl
  · exact calculate_started s

theorem poll_started (milliseconds : Nat) (worker_finishes : Bool)
    (s : AsynchronousBlockInputStream) :
    (poll milliseconds worker_finishes s).2.started = true := by
  unfold poll
  cases hst : s.started <;> cases worker_finishes <;> simp [worker_started, hst]

theorem readImpl_started (k : Nat) (s : AsynchronousBlockInputStream)
    (h : Wellformed k s) : (readImpl s).2.started = true := by
  obtain ⟨a1, _⟩ := awaited k s h
  rw [readImpl_eq_deliver]
  generalize (if !s.started then { calculate s with started := true } else poolWait s) = t
    at a1 ⊢
  rcases deliver_cases t with ⟨e, _, hd⟩ | ⟨_, _, hd⟩ | ⟨_, _, hd⟩ <;> rw [hd] <;> exact a1

/-- A stream is started exactly when the consumer has called `poll` or
`read` on it. -/
theorem started_after (calls : List Call) :
    ∀ (k : Nat) (s : AsynchronousBlockInputStream), Wellformed k s →
      (after s calls).started = (s.started || calls.any Call.isConsumer) := by
  induction calls with
  | nil => intro k s _; simp [after]
  | cons c calls ih =>
    intro k s h
    rw [after, ih _ _ (wellformed_step k s h c)]
    cases c with
    | poll milliseconds worker_finishes =>
      simp [step, poll_started, Call.isConsumer]
    | worker => simp [step, worker_started, Call.isConsumer]
    | read => simp [step, readImpl_started k s h, Call.isConsumer]

theorem Block.eq_empty_of_isEmpty (b : Block) (h : b.isEmpty = true) : b = Block.empty := by
  cases b with
  | mk d =>
    cases d with
    | nil => rfl
    | cons x xs => simp [Block.isEmpty] at h

/-- A read of a well-formed stream that returns the terminator leaves the
stream terminated. -/
theorem terminated_of_read (k : Nat) (s : AsynchronousBlockInputStream)
    (h : Wellformed k s) (b : Block) (hret : (readImpl s).1 = Except.ok b)
    (hb : b.isEmpty = true) : Terminated (readImpl s).2 := by
  obtain ⟨a1, a2, _⟩ := awaited k s h
  rw [readImpl_eq_deliver] at hret ⊢
  generalize (if !s.started then { calculate s with started := true } else poolWait s) = t
    at a1 a2 hret ⊢
  rcases deliver_cases t with ⟨e, _, hd⟩ | ⟨he, hbe, hd⟩ | ⟨_, hbe, hd⟩
  · rw [hd] at hret
    exact Except.noConfusion hret
  · rw [hd]
    exact ⟨a1, a2, he, hbe⟩
  · rw [hd] at hret
    simp only [Except.ok.injEq] at hret
    rw [hret, hb] at hbe
    exact Bool.noConfusion hbe

/-- On a terminated stream no call reads upstream or schedules a task, and a
read returns the terminator. -/
theorem terminated_step (s : AsynchronousBlockInputStream) (h : Terminated s) (c : Call) :
    Terminated (step s c).1 ∧
    (step s c).1.in_read_calls = s.in_read_calls ∧
    (step s c).1.schedule_calls = s.schedule_calls ∧
    (step s c).1.in_ = s.in_ ∧
    (step s c).2 = (if c.isRead then some (Except.ok Block.empty) else none) := by
  obtain ⟨h1, h2, h3, h4⟩ := h
  cases c with
  | worker =>
    have hw : step s Call.worker = (s, none) := by simp [step, worker, h2]
    rw [hw]
    exact ⟨⟨h1, h2, h3, h4⟩, rfl, rfl, rfl, rfl⟩
  | poll milliseconds worker_finishes =>
    have hp : step s (Call.poll milliseconds worker_finishes)
        = ({ s with ready := false }, none) := by
      cases worker_finishes <;> simp [step, poll, h1, worker, h2]
    rw [hp]
    exact ⟨⟨h1, h2, h3, h4⟩, rfl, rfl, rfl, rfl⟩
  | read =>
    have hd : readImpl s = (Except.ok s.block, s) := by
      rw [readImpl_eq_deliver]
      simp only [h1, Bool.not_true, Bool.false_eq_true, if_false, poolWait_of_pool_zero s h2]
      simp [deliver, h3, h4]
    have hr : step s Call.read = (s, some (Except.ok Block.empty)) := by
      simp only [step, hd]
      rw [Block.eq_empty_of_isEmpty s.block h4]
    rw [hr]
    exact ⟨⟨h1, h2, h3, h4⟩, rfl, rfl, rfl, rfl⟩

theorem terminated_reads (calls : List Call) :
    ∀ s : AsynchronousBlockInputStream, Terminated s →
      reads s calls = List.replicate (calls.countP Call.isRead) (Except.ok Block.empty) ∧
      Terminated (after s calls) ∧
      (after s calls).in_read_calls = s.in_read_calls ∧
      (after s calls).schedule_calls = s.schedule_calls ∧
      (after s calls).in_ = s.in_ := by
  induction calls with
  | nil => intro s h; exact ⟨rfl, h, rfl, rfl, rfl⟩
  | cons c calls ih =>
    intro s h
    obtain ⟨t1, t2, t3, t4, t5⟩ := terminated_step s h c
    obtain ⟨i1, i2, i3, i4, i5⟩ := ih _ t1
    refine ⟨?_, i2, i3.trans t2, i4.trans t3, i5.trans t4⟩
    simp only [reads, t5, i1, List.countP_cons]
    cases c <;> simp [Call.isRead, List.replicate_succ]

end AsynchronousBlockInputStream

theorem AsynchronousBlockInputStream.worker_schedule_calls
    (s : AsynchronousBlockInputStream) :
    (AsynchronousBlockInputStream.worker s).schedule_calls = s.schedule_calls := by
  unfold AsynchronousBlockInputStream.worker
  split
  · rfl
  · exact AsynchronousBlockInputStream.calculate_schedule_calls s

theorem AsynchronousBlockInputStream.poll_schedule_calls (milliseconds : Nat)
    (worker_finishes : Bool) (s : AsynchronousBlockInputStream) :
    (AsynchronousBlockInputStream.poll milliseconds worker_finishes s).2.schedule_calls
      = s.schedule_calls + (if s.started then 0 else 1) := by
  unfold AsynchronousBlockInputStream.poll
  cases hst : s.started <;> cases worker_finishes <;>
    simp [AsynchronousBlockInputStream.worker_schedule_calls,
      AsynchronousBlockInputStream.next]

/-- C13.  Termination is sticky: once a `read` of a stream (created on any
upstream and used through any sequence of calls) has returned the terminator,
every further `read` returns the terminator, whatever `poll` calls and worker
runs come in between; upstream's `read` is never invoked again (the count of
its calls and the upstream itself stay as they are) and no task is scheduled
any more (the count of `pool.schedule` calls stays as it is and the pool is
empty). -/
theorem AsynchronousBlockInputStream.terminator_is_sticky
    (up : IBlockInputStream) (before later : List AsynchronousBlockInputStream.Call)
    (b : Block)
    (hret : (AsynchronousBlockInputStream.readImpl
      (AsynchronousBlockInputStream.after (AsynchronousBlockInputStream.create up) before)).1
        = Except.ok b)
    (hb : b.isEmpty = true) :
    AsynchronousBlockInputStream.reads
        (AsynchronousBlockInputStream.readImpl
          (AsynchronousBlockInputStream.after
            (AsynchronousBlockInputStream.create up) before)).2 later
      = List.replicate (later.countP AsynchronousBlockInputStream.Call.isRead)
          (Except.ok Block.empty) ∧
    (AsynchronousBlockInputStream.after
        (AsynchronousBlockInputStream.readImpl
          (AsynchronousBlockInputStream.after
            (AsynchronousBlockInputStream.create up) before)).2 later).in_read_calls
      = (AsynchronousBlockInputStream.readImpl
          (AsynchronousBlockInputStream.after
            (AsynchronousBlockInputStream.create up) before)).2.in_read_calls ∧
    (AsynchronousBlockInputStream.after
        (AsynchronousBlockInputStream.readImpl
          (AsynchronousBlockInputStream.after
            (AsynchronousBlockInputStream.create up) before)).2 later).in_
      = (AsynchronousBlockInputStream.readImpl
          (AsynchronousBlockInputStream.after
            (AsynchronousBlockInputStream.create up) before)).2.in_ ∧
    (AsynchronousBlockInputStream.after
        (AsynchronousBlockInputStream.readImpl
          (AsynchronousBlockInputStream.after
            (AsynchronousBlockInputStream.create up) before)).2 later).schedule_calls
      = (AsynchronousBlockInputStream.readImpl
          (AsynchronousBlockInputStream.after
            (AsynchronousBlockInputStream.create up) before)).2.schedule_calls ∧
    (AsynchronousBlockInputStream.after
        (AsynchronousBlockInputStream.readImpl
          (AsynchronousBlockInputStream.after
            (AsynchronousBlockInputStream.create up) before)).2 later).pool = 0 := by
  have hw := AsynchronousBlockInputStream.wellformed_after before 0 _
    (AsynchronousBlockInputStream.wellformed_create up)
  have ht := AsynchronousBlockInputStream.terminated_of_read _ _ hw b hret hb
  obtain ⟨r1, r2, r3, r4, r5⟩ := AsynchronousBlockInputStream.terminated_reads later _ ht
  exact ⟨r1, r3, r5, r4, r2.2.1⟩

/-- Witness for C13: upstream yields one block and the terminator; the second
read returns the terminator, and so do the two reads that follow, while the
block that upstream holds after its terminator is never asked for. -/
theorem AsynchronousBlockInputStream.terminator_is_sticky_witness :
    AsynchronousBlockInputStream.reads
        (AsynchronousBlockInputStream.readImpl
          (AsynchronousBlockInputStream.after
            (AsynchronousBlockInputStream.create upstreamPastEnd) [.read])).2
        [.read, .poll 5 true, .worker, .read]
      = List.replicate 2 (Except.ok Block.empty) :=
  (AsynchronousBlockInputStream.terminator_is_sticky upstreamPastEnd [.read]
    [.read, .poll 5 true, .worker, .read] Block.empty rfl rfl).1

/-- C14.  The stream reads ahead by exactly one block.  A `read` on a stream
in its initial state reads upstream once, on the caller's thread: afterwards
upstream has been read once while every task scheduled so far is still
outstanding, so no worker did it.  On a stream used through any sequence of
calls, a `read` schedules exactly one computation when it returns a non-empty
block and none otherwise (terminator or exception).  Hence, once the
consumer has called `poll` or `read` at all, after `k` reads that returned a
non-empty block exactly `k + 1` computations of upstream blocks have been
requested (run or scheduled); before that none has. -/
theorem AsynchronousBlockInputStream.reads_ahead_by_one
    (up : IBlockInputStream) (calls : List AsynchronousBlockInputStream.Call) :
    ((AsynchronousBlockInputStream.readImpl
        (AsynchronousBlockInputStream.create up)).2.in_read_calls = 1 ∧
      (AsynchronousBlockInputStream.readImpl
        (AsynchronousBlockInputStream.create up)).2.schedule_calls
        = (AsynchronousBlockInputStream.readImpl
            (AsynchronousBlockInputStream.create up)).2.pool) ∧
    (AsynchronousBlockInputStream.readImpl
        (AsynchronousBlockInputStream.after
          (AsynchronousBlockInputStream.create up) calls)).2.schedule_calls
      = (AsynchronousBlockInputStream.after
          (AsynchronousBlockInputStream.create up) calls).schedule_calls
        + (if AsynchronousBlockInputStream.returnsBlock
              (AsynchronousBlockInputStream.readImpl
                (AsynchronousBlockInputStream.after
                  (AsynchronousBlockInputStream.create up) calls)).1 then 1 else 0) ∧
    (AsynchronousBlockInputStream.after
        (AsynchronousBlockInputStream.create up) calls).started
      = calls.any AsynchronousBlockInputStream.Call.isConsumer ∧
    ((AsynchronousBlockInputStream.after
        (AsynchronousBlockInputStream.create up) calls).started = true →
      AsynchronousBlockInputStream.requested
          (AsynchronousBlockInputStream.after (AsynchronousBlockInputStream.create up) calls)
        = AsynchronousBlockInputStream.blocksReturned
            (AsynchronousBlockInputStream.create up) calls + 1) ∧
    ((AsynchronousBlockInputStream.after
        (AsynchronousBlockInputStream.create up) calls).started = false →
      AsynchronousBlockInputStream.requested
          (AsynchronousBlockInputStream.after (AsynchronousBlockInputStream.create up) calls)
        = 0) := by
  have h0 := AsynchronousBlockInputStream.wellformed_create up
  have hw := AsynchronousBlockInputStream.wellformed_after calls 0 _ h0
  obtain ⟨_, f2, f3, f4⟩ := AsynchronousBlockInputStream.wellformed_read 0 _ h0
  obtain ⟨_, g2, _, _⟩ := AsynchronousBlockInputStream.wellformed_read _ _ hw
  have hs := AsynchronousBlockInputStream.started_after calls 0 _ h0
  refine ⟨⟨?_, ?_⟩, g2, ?_, ?_, ?_⟩
  · simpa [AsynchronousBlockInputStream.create] using f4
  · rw [f2, f3]
    simp [AsynchronousBlockInputStream.create]
  · simpa [AsynchronousBlockInputStream.create] using hs
  · intro hst
    have := hw.2.2.2 hst
    simpa using this
  · intro hst
    obtain ⟨p1, _, p3, _, _⟩ := hw.2.2.1 hst
    simp [AsynchronousBlockInputStream.requested, p1, p3]

/-- Witness for C14: after a read, a poll and a second read, both of which
returned a non-empty block, three computations have been requested. -/
theorem AsynchronousBlockInputStream.reads_ahead_by_one_witness :
    AsynchronousBlockInputStream.requested
        (AsynchronousBlockInputStream.after
          (AsynchronousBlockInputStream.create [Except.ok blockA123, Except.ok blockA45])
          [.read, .poll 0 false, .read])
      = AsynchronousBlockInputStream.blocksReturned
          (AsynchronousBlockInputStream.create [Except.ok blockA123, Except.ok blockA45])
          [.read, .poll 0 false, .read] + 1 ∧
    AsynchronousBlockInputStream.blocksReturned
        (AsynchronousBlockInputStream.create [Except.ok blockA123, Except.ok blockA45])
        [.read, .poll 0 false, .read] = 2 :=
  ⟨(AsynchronousBlockInputStream.reads_ahead_by_one
      [Except.ok blockA123, Except.ok blockA45] [.read, .poll 0 false, .read]).2.2.2.1 rfl,
    rfl⟩

/-- C15.  The single-worker invariant.  On a stream created on any upstream
and used through any sequence of `poll` calls, `read` calls and worker runs:
at most one computation is scheduled and not yet completed; while one is, and
before the stream is started, the buffer `block` is empty, so a computation
never overwrites a block that has not been taken; `poll` schedules a
computation exactly when neither `poll` nor `read` has run before, and then
none is outstanding; `read` returns only after every earlier computation has
run (upstream has been read once more for the outstanding task, or once
synchronously on the first call), schedules at most one computation, and
leaves outstanding exactly what it scheduled itself. -/
theorem AsynchronousBlockInputStream.at_most_one_outstanding
    (up : IBlockInputStream) (calls : List AsynchronousBlockInputStream.Call)
    (milliseconds : Nat) (worker_finishes : Bool) :
    (AsynchronousBlockInputStream.after
        (AsynchronousBlockInputStream.create up) calls).pool ≤ 1 ∧
    ((AsynchronousBlockInputStream.after
        (AsynchronousBlockInputStream.create up) calls).pool = 1 →
      (AsynchronousBlockInputStream.after
        (AsynchronousBlockInputStream.create up) calls).block.isEmpty = true) ∧
    ((AsynchronousBlockInputStream.after
        (AsynchronousBlockInputStream.create up) calls).started = false →
      (AsynchronousBlockInputStream.after
        (AsynchronousBlockInputStream.create up) calls).pool = 0 ∧
      (AsynchronousBlockInputStream.after
        (AsynchronousBlockInputStream.create up) calls).block.isEmpty = true) ∧
    (AsynchronousBlockInputStream.after
        (AsynchronousBlockInputStream.create up) calls).started
      = calls.any AsynchronousBlockInputStream.Call.isConsumer ∧
    (AsynchronousBlockInputStream.poll milliseconds worker_finishes
        (AsynchronousBlockInputStream.after
          (AsynchronousBlockInputStream.create up) calls)).2.schedule_calls
      = (AsynchronousBlockInputStream.after
          (AsynchronousBlockInputStream.create up) calls).schedule_calls
        + (if (AsynchronousBlockInputStream.after
              (AsynchronousBlockInputStream.create up) calls).started then 0 else 1) ∧
    (AsynchronousBlockInputStream.poll milliseconds worker_finishes
        (AsynchronousBlockInputStream.after
          (AsynchronousBlockInputStream.create up) calls)).2.pool ≤ 1 ∧
    (AsynchronousBlockInputStream.readImpl
        (AsynchronousBlockInputStream.after
          (AsynchronousBlockInputStream.create up) calls)).2.in_read_calls
      = (AsynchronousBlockInputStream.after
          (AsynchronousBlockInputStream.create up) calls).in_read_calls
        + (if (AsynchronousBlockInputStream.after
              (AsynchronousBlockInputStream.create up) calls).started
           then (AsynchronousBlockInputStream.after
              (AsynchronousBlockInputStream.create up) calls).pool
           else 1) ∧
    (AsynchronousBlockInputStream.readImpl
        (AsynchronousBlockInputStream.after
          (AsynchronousBlockInputStream.create up) calls)).2.schedule_calls
      ≤ (AsynchronousBlockInputStream.after
          (AsynchronousBlockInputStream.create up) calls).schedule_calls + 1 ∧
    (AsynchronousBlockInputStream.readImpl
        (AsynchronousBlockInputStream.after
          (AsynchronousBlockInputStream.create up) calls)).2.pool
      = (AsynchronousBlockInputStream.readImpl
          (AsynchronousBlockInputStream.after
            (AsynchronousBlockInputStream.create up) calls)).2.schedule_calls
        - (AsynchronousBlockInputStream.after
            (AsynchronousBlockInputStream.create up) calls).schedule_calls := by
  have h0 := AsynchronousBlockInputStream.wellformed_create up
  have hw := AsynchronousBlockInputStream.wellformed_after calls 0 _ h0
  obtain ⟨_, g2, g3, g4⟩ := AsynchronousBlockInputStream.wellformed_read _ _ hw
  have hs := AsynchronousBlockInputStream.started_after calls 0 _ h0
  have hp := AsynchronousBlockInputStream.wellformed_poll _ _ hw milliseconds worker_finishes
  refine ⟨hw.1, hw.2.1, ?_, ?_, AsynchronousBlockInputStream.poll_schedule_calls _ _ _,
    hp.1, g4, ?_, ?_⟩
  · intro hst
    obtain ⟨p1, p2, _⟩ := hw.2.2.1 hst
    exact ⟨p1, p2⟩
  · simpa [AsynchronousBlockInputStream.create] using hs
  · rw [g2]; split <;> omega
  · rw [g2, g3]; omega

/-- Witness for C15: after a poll that started the stream and a read, a
further poll schedules nothing and one computation is outstanding, with the
buffer empty. -/
theorem AsynchronousBlockInputStream.at_most_one_outstanding_witness :
    (AsynchronousBlockInputStream.after
        (AsynchronousBlockInputStream.create [Except.ok blockA123, Except.ok blockA45])
        [.poll 0 false, .read]).pool = 1 ∧
    (AsynchronousBlockInputStream.after
        (AsynchronousBlockInputStream.create [Except.ok blockA123, Except.ok blockA45])
        [.poll 0 false, .read]).block.isEmpty = true ∧
    (AsynchronousBlockInputStream.poll 7 false
        (AsynchronousBlockInputStream.after
          (AsynchronousBlockInputStream.create [Except.ok blockA123, Except.ok blockA45])
          [.poll 0 false, .read])).2.schedule_calls = 2 + 0 :=
  have h := AsynchronousBlockInputStream.at_most_one_outstanding
    [Except.ok blockA123, Except.ok blockA45] [.poll 0 false, .read] 7 false
  ⟨rfl, h.2.1 rfl, h.2.2.2.2.1⟩

end DB
